import Mathlib

set_option maxHeartbeats 1000000

/-!
Verification development for the gcdiff structural diff engine.

The embedding models:
- the generic document value type (`Value`, standing for the dynamic
  `interface{}` values produced by JSON decoding: nil, bool, float64,
  string, `[]interface{}`, `map[string]interface{}`; numbers are modelled
  as integers, which is faithful for every property considered here since
  the engine only tests scalar equality),
- the configuration (`Config` with `ShouldIgnore`),
- the recursive differ (`Differ.compare` / `compareObjects` /
  `compareValues` / `compareArrays`),
- the flattening collector (`getAllDiffs`),
- both text renderers (`printGitStyleDiff` and `printGitStyleDiffV2`).

Go maps (`map[string]interface{}`, `map[string]*Diff`) are modelled as
association lists with unique keys.  Where the Go code iterates over a map
in unspecified order the model fixes a deterministic order: the differ
visits the union of keys in sorted order (the set of produced children is
order-independent), and the renderers iterate association lists in list
order.  The collector and the renderers perform their own explicit sorting
exactly as the source does.
-/

namespace GcdiffProof

/-- Generic document value (the dynamic values handed to the differ). -/
inductive Value where
  | null : Value
  | bool : Bool → Value
  | num : Int → Value
  | str : String → Value
  | arr : List Value → Value
  | obj : List (String × Value) → Value

/-- `DiffType` from the source: added / removed / modified / equal. -/
inductive DiffType where
  | added : DiffType
  | removed : DiffType
  | modified : DiffType
  | equal : DiffType
deriving DecidableEq

/-- `Diff` from the source: path, type, optional payloads `Value1`/`Value2`,
and a children map (modelled as an association list). -/
inductive Diff where
  | mk : String → DiffType → Option Value → Option Value → List (String × Diff) → Diff

def Diff.path : Diff → String
  | .mk p _ _ _ _ => p

def Diff.type : Diff → DiffType
  | .mk _ t _ _ _ => t

def Diff.value1 : Diff → Option Value
  | .mk _ _ v _ _ => v

def Diff.value2 : Diff → Option Value
  | .mk _ _ _ v _ => v

def Diff.children : Diff → List (String × Diff)
  | .mk _ _ _ _ cs => cs

@[simp] theorem Diff.path_mk (p t v1 v2 cs) : (Diff.mk p t v1 v2 cs).path = p := rfl
@[simp] theorem Diff.type_mk (p t v1 v2 cs) : (Diff.mk p t v1 v2 cs).type = t := rfl
@[simp] theorem Diff.value1_mk (p t v1 v2 cs) : (Diff.mk p t v1 v2 cs).value1 = v1 := rfl
@[simp] theorem Diff.value2_mk (p t v1 v2 cs) : (Diff.mk p t v1 v2 cs).value2 = v2 := rfl
@[simp] theorem Diff.children_mk (p t v1 v2 cs) : (Diff.mk p t v1 v2 cs).children = cs := rfl

/-- `Config` from the source: exact-match ignore paths plus the declared
(but unused) regex patterns. -/
structure Config where
  ignoreFields : List String
  ignorePatterns : List String

/-- `Config.ShouldIgnore`: checks the exact matches only; the source
carries a TODO for pattern matching and never consults `ignorePatterns`. -/
def Config.shouldIgnore (c : Config) (fieldPath : String) : Bool :=
  c.ignoreFields.any (fun field => field == fieldPath)

/-- `Differ` from the source. -/
structure Differ where
  config : Config
  showAll : Bool

/-- Go map indexing `val, exists := obj[key]` on the association list. -/
def lookupV (o : List (String × Value)) (k : String) : Option Value :=
  (o.find? (fun p => p.1 == k)).map (fun p => p.2)

/-- The keys of an object. -/
def keysOf (o : List (String × Value)) : List String :=
  o.map Prod.fst

/-- The union of keys of both objects.  The Go code iterates a
`map[string]bool` key set in unspecified order; the model fixes the
sorted order. -/
def sortedKeys (o1 o2 : List (String × Value)) : List String :=
  List.insertionSort (fun a b => a ≤ b) (List.dedup (keysOf o1 ++ keysOf o2))

theorem sizeOf_lookupV {o : List (String × Value)} {k : String} {v : Value}
    (h : lookupV o k = some v) : sizeOf v < sizeOf o := by
  unfold lookupV at h
  cases hf : List.find? (fun p => p.1 == k) o with
  | none => rw [hf] at h; simp at h
  | some p =>
    rw [hf] at h
    simp only [Option.map_some'] at h
    have hm := List.mem_of_find?_eq_some hf
    have hs := List.sizeOf_lt_of_mem hm
    cases p with
    | mk a b =>
      injection h with h
      subst h
      simp only [Prod.mk.sizeOf_spec] at hs
      show sizeOf b < _
      omega

theorem sizeOf_getElemV {a : List Value} {i : Nat} {v : Value}
    (h : a[i]? = some v) : sizeOf v < sizeOf a :=
  List.sizeOf_lt_of_mem (List.getElem?_mem h)

/-- The field path computed per key in `compareObjects`:
`fieldPath := key`, or `path + "." + key` when the parent path is
nonempty. -/
def fieldPathFor (path key : String) : String :=
  if path = "" then key else path ++ "." ++ key

mutual

/-- `Differ.compareValues` from the source: nil handling first, then the
runtime-type check, then the per-category comparison (objects and arrays
recurse, scalars use deep equality). -/
def compareValues (d : Differ) (v1 v2 : Value) (path : String) : Diff :=
  match v1, v2 with
  | .null, .null => .mk path .equal none none []
  | .null, w2 => .mk path .added none (some w2) []
  | w1, .null => .mk path .removed (some w1) none []
  | .obj o1, .obj o2 => compareObjects d o1 o2 path
  | .arr a1, .arr a2 => compareArrays d a1 a2 path
  | .bool b1, .bool b2 =>
    if b1 = b2 then .mk path .equal none none []
    else .mk path .modified (some (.bool b1)) (some (.bool b2)) []
  | .num n1, .num n2 =>
    if n1 = n2 then .mk path .equal none none []
    else .mk path .modified (some (.num n1)) (some (.num n2)) []
  | .str s1, .str s2 =>
    if s1 = s2 then .mk path .equal none none []
    else .mk path .modified (some (.str s1)) (some (.str s2)) []
  | w1, w2 => .mk path .modified (some w1) (some w2) []
termination_by (sizeOf v1 + sizeOf v2, 0)

/-- `Differ.compareObjects` from the source: the node is Equal exactly when
no child difference was recorded. -/
def compareObjects (d : Differ) (o1 o2 : List (String × Value)) (path : String) : Diff :=
  let cs := compareObjChildren d o1 o2 path (sortedKeys o1 o2)
  .mk path (match cs with | [] => .equal | _ => .modified) none none cs
termination_by (sizeOf o1 + sizeOf o2, (sortedKeys o1 o2).length + 1)

/-- The per-key loop body of `Differ.compareObjects`: skip ignored field
paths (unless `showAll`), emit Added/Removed for one-sided keys, recurse
for shared keys and keep the child only when it is not Equal. -/
def compareObjChildren (d : Differ) (o1 o2 : List (String × Value)) (path : String) :
    List String → List (String × Diff)
  | [] => []
  | key :: rest =>
    let fieldPath := fieldPathFor path key
    let entry : List (String × Diff) :=
      if !d.showAll && d.config.shouldIgnore fieldPath then []
      else
        match h1 : lookupV o1 key, h2 : lookupV o2 key with
        | none, some v2 => [(key, .mk fieldPath .added none (some v2) [])]
        | some v1, none => [(key, .mk fieldPath .removed (some v1) none [])]
        | some v1, some v2 =>
          let cd := compareValues d v1 v2 fieldPath
          if cd.type ≠ DiffType.equal then [(key, cd)] else []
        | none, none => []
    entry ++ compareObjChildren d o1 o2 path rest
termination_by keys => (sizeOf o1 + sizeOf o2, keys.length)
decreasing_by
  all_goals
    first
    | decreasing_tactic
    | (have s1 := sizeOf_lookupV h1
       have s2 := sizeOf_lookupV h2
       decreasing_tactic)

/-- `Differ.compareArrays` from the source. -/
def compareArrays (d : Differ) (a1 a2 : List Value) (path : String) : Diff :=
  let cs := compareArrChildren d a1 a2 path (List.range (max a1.length a2.length))
  .mk path (match cs with | [] => .equal | _ => .modified) none none cs
termination_by (sizeOf a1 + sizeOf a2, max a1.length a2.length + 1)

/-- The index loop body of `Differ.compareArrays`: positional comparison,
Added for indices only in the second array, Removed for indices only in
the first. -/
def compareArrChildren (d : Differ) (a1 a2 : List Value) (path : String) :
    List Nat → List (String × Diff)
  | [] => []
  | i :: rest =>
    let indexPath := path ++ "[" ++ Nat.repr i ++ "]"
    let key := "[" ++ Nat.repr i ++ "]"
    let entry : List (String × Diff) :=
      match h1 : a1[i]?, h2 : a2[i]? with
      | some v1, some v2 =>
        let cd := compareValues d v1 v2 indexPath
        if cd.type ≠ DiffType.equal then [(key, cd)] else []
      | none, some v2 => [(key, .mk indexPath .added none (some v2) [])]
      | some v1, none => [(key, .mk indexPath .removed (some v1) none [])]
      | none, none => []
    entry ++ compareArrChildren d a1 a2 path rest
termination_by idxs => (sizeOf a1 + sizeOf a2, idxs.length)
decreasing_by
  all_goals
    first
    | decreasing_tactic
    | (have s1 := sizeOf_getElemV h1
       have s2 := sizeOf_getElemV h2
       decreasing_tactic)

end

/-- `Differ.Compare`: the public entry point, rooted at the empty path. -/
def Differ.compare (d : Differ) (o1 o2 : List (String × Value)) : Diff :=
  compareObjects d o1 o2 ""

/-- Go map indexing `diff.Children[key]`. -/
def lookupD (cs : List (String × Diff)) (k : String) : Option Diff :=
  (cs.find? (fun p => p.1 == k)).map (fun p => p.2)

theorem sizeOf_lookupD {cs : List (String × Diff)} {k : String} {c : Diff}
    (h : lookupD cs k = some c) : sizeOf c < sizeOf cs := by
  unfold lookupD at h
  cases hf : List.find? (fun p => p.1 == k) cs with
  | none => rw [hf] at h; simp at h
  | some p =>
    rw [hf] at h
    simp only [Option.map_some'] at h
    have hm := List.mem_of_find?_eq_some hf
    have hs := List.sizeOf_lt_of_mem hm
    cases p with
    | mk a b =>
      injection h with h
      subst h
      simp only [Prod.mk.sizeOf_spec] at hs
      show sizeOf b < _
      omega

mutual

/-- `GetAllDiffs` from the source: emit the node itself when it is a
non-Equal leaf, then recurse into the children in `sort.Strings` order of
their keys. -/
def getAllDiffs : Diff → List Diff
  | .mk p t v1 v2 cs =>
    let own : List Diff :=
      match t, cs with
      | DiffType.equal, _ => []
      | _, _ :: _ => []
      | _, [] => [.mk p t v1 v2 cs]
    own ++ getAllDiffsKeys cs (List.insertionSort (fun a b => a ≤ b) (cs.map Prod.fst))
termination_by d => (sizeOf d, 0)

/-- The key loop of `GetAllDiffs` over the sorted key list. -/
def getAllDiffsKeys (cs : List (String × Diff)) : List String → List Diff
  | [] => []
  | k :: rest =>
    (match h : lookupD cs k with
     | some c => getAllDiffs c
     | none => []) ++ getAllDiffsKeys cs rest
termination_by keys => (sizeOf cs, keys.length + 1)
decreasing_by
  all_goals
    first
    | decreasing_tactic
    | (have s := sizeOf_lookupD h
       decreasing_tactic)

end

/-! ### Unfolding interface for the well-founded definitions -/

/-- Runtime type category of a value (the image of Go's `reflect.TypeOf`
on the JSON-decoded values). -/
def typeTag : Value → Nat
  | .null => 0
  | .bool _ => 1
  | .num _ => 2
  | .str _ => 3
  | .arr _ => 4
  | .obj _ => 5

/-- The node type computed by `compareObjects` / `compareArrays`: Equal
while no child was recorded, Modified as soon as one was. -/
def typeOfChildren (cs : List (String × Diff)) : DiffType :=
  match cs with
  | [] => .equal
  | _ => .modified

@[simp] theorem typeOfChildren_nil : typeOfChildren [] = .equal := rfl

@[simp] theorem typeOfChildren_cons (e : String × Diff) (cs : List (String × Diff)) :
    typeOfChildren (e :: cs) = .modified := rfl

theorem typeOfChildren_eq_equal_iff (cs : List (String × Diff)) :
    typeOfChildren cs = .equal ↔ cs = [] := by
  cases cs <;> simp [typeOfChildren]

theorem cv_null_null (d : Differ) (path : String) :
    compareValues d .null .null path = .mk path .equal none none [] := by
  rw [compareValues]

theorem cv_null_left (d : Differ) (v : Value) (path : String) (h : v ≠ .null) :
    compareValues d .null v path = .mk path .added none (some v) [] := by
  cases v <;> first
    | exact absurd rfl h
    | (rw [compareValues] <;> simp)

theorem cv_null_right (d : Differ) (v : Value) (path : String) (h : v ≠ .null) :
    compareValues d v .null path = .mk path .removed (some v) none [] := by
  cases v <;> first
    | exact absurd rfl h
    | (rw [compareValues] <;> simp)

theorem cv_obj_obj (d : Differ) (o1 o2 : List (String × Value)) (path : String) :
    compareValues d (.obj o1) (.obj o2) path = compareObjects d o1 o2 path := by
  rw [compareValues]

theorem cv_arr_arr (d : Differ) (a1 a2 : List Value) (path : String) :
    compareValues d (.arr a1) (.arr a2) path = compareArrays d a1 a2 path := by
  rw [compareValues]

theorem cv_bool_bool (d : Differ) (b1 b2 : Bool) (path : String) :
    compareValues d (.bool b1) (.bool b2) path =
      (if b1 = b2 then .mk path .equal none none []
       else .mk path .modified (some (.bool b1)) (some (.bool b2)) []) := by
  rw [compareValues]

theorem cv_num_num (d : Differ) (n1 n2 : Int) (path : String) :
    compareValues d (.num n1) (.num n2) path =
      (if n1 = n2 then .mk path .equal none none []
       else .mk path .modified (some (.num n1)) (some (.num n2)) []) := by
  rw [compareValues]

theorem cv_str_str (d : Differ) (s1 s2 : String) (path : String) :
    compareValues d (.str s1) (.str s2) path =
      (if s1 = s2 then .mk path .equal none none []
       else .mk path .modified (some (.str s1)) (some (.str s2)) []) := by
  rw [compareValues]

theorem cv_mismatch (d : Differ) (v1 v2 : Value) (path : String)
    (h1 : v1 ≠ .null) (h2 : v2 ≠ .null) (hm : typeTag v1 ≠ typeTag v2) :
    compareValues d v1 v2 path = .mk path .modified (some v1) (some v2) [] := by
  cases v1 <;> cases v2 <;>
    first
    | exact absurd rfl h1
    | exact absurd rfl h2
    | exact absurd rfl hm
    | (rw [compareValues] <;> simp)

theorem compareObjects_eq (d : Differ) (o1 o2 : List (String × Value)) (path : String) :
    compareObjects d o1 o2 path =
      .mk path (typeOfChildren (compareObjChildren d o1 o2 path (sortedKeys o1 o2)))
        none none (compareObjChildren d o1 o2 path (sortedKeys o1 o2)) := by
  rw [compareObjects]
  rfl

theorem compareArrays_eq (d : Differ) (a1 a2 : List Value) (path : String) :
    compareArrays d a1 a2 path =
      .mk path
        (typeOfChildren
          (compareArrChildren d a1 a2 path (List.range (max a1.length a2.length))))
        none none
        (compareArrChildren d a1 a2 path (List.range (max a1.length a2.length))) := by
  rw [compareArrays]
  rfl

theorem objc_nil (d : Differ) (o1 o2 : List (String × Value)) (path : String) :
    compareObjChildren d o1 o2 path [] = [] := by
  rw [compareObjChildren]

theorem objc_cons_ignored (d : Differ) (o1 o2 : List (String × Value)) (path key : String)
    (rest : List String)
    (hig : (!d.showAll && d.config.shouldIgnore (fieldPathFor path key)) = true) :
    compareObjChildren d o1 o2 path (key :: rest) = compareObjChildren d o1 o2 path rest := by
  rw [compareObjChildren]
  simp [hig]

theorem objc_cons_added (d : Differ) (o1 o2 : List (String × Value)) (path key : String)
    (rest : List String) (v2 : Value)
    (hig : (!d.showAll && d.config.shouldIgnore (fieldPathFor path key)) = false)
    (h1 : lookupV o1 key = none) (h2 : lookupV o2 key = some v2) :
    compareObjChildren d o1 o2 path (key :: rest) =
      (key, .mk (fieldPathFor path key) .added none (some v2) []) ::
        compareObjChildren d o1 o2 path rest := by
  rw [compareObjChildren]
  simp only [hig, Bool.false_eq_true, if_false]
  split <;> simp_all

theorem objc_cons_removed (d : Differ) (o1 o2 : List (String × Value)) (path key : String)
    (rest : List String) (v1 : Value)
    (hig : (!d.showAll && d.config.shouldIgnore (fieldPathFor path key)) = false)
    (h1 : lookupV o1 key = some v1) (h2 : lookupV o2 key = none) :
    compareObjChildren d o1 o2 path (key :: rest) =
      (key, .mk (fieldPathFor path key) .removed (some v1) none []) ::
        compareObjChildren d o1 o2 path rest := by
  rw [compareObjChildren]
  simp only [hig, Bool.false_eq_true, if_false]
  split <;> simp_all

theorem objc_cons_both (d : Differ) (o1 o2 : List (String × Value)) (path key : String)
    (rest : List String) (v1 v2 : Value)
    (hig : (!d.showAll && d.config.shouldIgnore (fieldPathFor path key)) = false)
    (h1 : lookupV o1 key = some v1) (h2 : lookupV o2 key = some v2) :
    compareObjChildren d o1 o2 path (key :: rest) =
      (if (compareValues d v1 v2 (fieldPathFor path key)).type ≠ DiffType.equal
       then [(key, compareValues d v1 v2 (fieldPathFor path key))]
       else []) ++ compareObjChildren d o1 o2 path rest := by
  rw [compareObjChildren]
  simp only [hig, Bool.false_eq_true, if_false]
  split <;> simp_all

theorem objc_cons_missing (d : Differ) (o1 o2 : List (String × Value)) (path key : String)
    (rest : List String)
    (hig : (!d.showAll && d.config.shouldIgnore (fieldPathFor path key)) = false)
    (h1 : lookupV o1 key = none) (h2 : lookupV o2 key = none) :
    compareObjChildren d o1 o2 path (key :: rest) = compareObjChildren d o1 o2 path rest := by
  rw [compareObjChildren]
  simp only [hig, Bool.false_eq_true, if_false]
  split <;> simp_all

theorem arrc_nil (d : Differ) (a1 a2 : List Value) (path : String) :
    compareArrChildren d a1 a2 path [] = [] := by
  rw [compareArrChildren]

theorem arrc_cons_both (d : Differ) (a1 a2 : List Value) (path : String) (i : Nat)
    (rest : List Nat) (v1 v2 : Value)
    (h1 : a1[i]? = some v1) (h2 : a2[i]? = some v2) :
    compareArrChildren d a1 a2 path (i :: rest) =
      (if (compareValues d v1 v2 (path ++ "[" ++ Nat.repr i ++ "]")).type ≠ DiffType.equal
       then [("[" ++ Nat.repr i ++ "]", compareValues d v1 v2 (path ++ "[" ++ Nat.repr i ++ "]"))]
       else []) ++ compareArrChildren d a1 a2 path rest := by
  rw [compareArrChildren]
  split <;> simp_all

theorem arrc_cons_added (d : Differ) (a1 a2 : List Value) (path : String) (i : Nat)
    (rest : List Nat) (v2 : Value)
    (h1 : a1[i]? = none) (h2 : a2[i]? = some v2) :
    compareArrChildren d a1 a2 path (i :: rest) =
      ("[" ++ Nat.repr i ++ "]",
        .mk (path ++ "[" ++ Nat.repr i ++ "]") .added none (some v2) []) ::
        compareArrChildren d a1 a2 path rest := by
  rw [compareArrChildren]
  split <;> simp_all

theorem arrc_cons_removed (d : Differ) (a1 a2 : List Value) (path : String) (i : Nat)
    (rest : List Nat) (v1 : Value)
    (h1 : a1[i]? = some v1) (h2 : a2[i]? = none) :
    compareArrChildren d a1 a2 path (i :: rest) =
      ("[" ++ Nat.repr i ++ "]",
        .mk (path ++ "[" ++ Nat.repr i ++ "]") .removed (some v1) none []) ::
        compareArrChildren d a1 a2 path rest := by
  rw [compareArrChildren]
  split <;> simp_all

theorem arrc_cons_missing (d : Differ) (a1 a2 : List Value) (path : String) (i : Nat)
    (rest : List Nat)
    (h1 : a1[i]? = none) (h2 : a2[i]? = none) :
    compareArrChildren d a1 a2 path (i :: rest) = compareArrChildren d a1 a2 path rest := by
  rw [compareArrChildren]
  split <;> simp_all

theorem getAllDiffs_eq (p : String) (t : DiffType) (v1 v2 : Option Value)
    (cs : List (String × Diff)) :
    getAllDiffs (.mk p t v1 v2 cs) =
      (match t, cs with
       | DiffType.equal, _ => []
       | _, _ :: _ => []
       | _, [] => [Diff.mk p t v1 v2 cs]) ++
        getAllDiffsKeys cs (List.insertionSort (fun a b => a ≤ b) (cs.map Prod.fst)) := by
  rw [getAllDiffs.eq_def]

theorem getAllDiffs_equal (p : String) (v1 v2 : Option Value) (cs : List (String × Diff)) :
    getAllDiffs (.mk p .equal v1 v2 cs) =
      getAllDiffsKeys cs (List.insertionSort (fun a b => a ≤ b) (cs.map Prod.fst)) := by
  rw [getAllDiffs_eq]
  cases cs <;> rfl

theorem getAllDiffs_leaf (p : String) (t : DiffType) (v1 v2 : Option Value)
    (ht : t ≠ .equal) :
    getAllDiffs (.mk p t v1 v2 []) = [.mk p t v1 v2 []] := by
  rw [getAllDiffs_eq]
  cases t <;> simp_all [getAllDiffsKeys]

theorem getAllDiffs_interior (p : String) (t : DiffType) (v1 v2 : Option Value)
    (cs : List (String × Diff)) (ht : t ≠ .equal) (hcs : cs ≠ []) :
    getAllDiffs (.mk p t v1 v2 cs) =
      getAllDiffsKeys cs (List.insertionSort (fun a b => a ≤ b) (cs.map Prod.fst)) := by
  rw [getAllDiffs_eq]
  cases t <;> cases cs <;> simp_all

theorem gadk_nil (cs : List (String × Diff)) : getAllDiffsKeys cs [] = [] := by
  rw [getAllDiffsKeys]

theorem gadk_cons_found (cs : List (String × Diff)) (k : String) (rest : List String)
    (c : Diff) (h : lookupD cs k = some c) :
    getAllDiffsKeys cs (k :: rest) = getAllDiffs c ++ getAllDiffsKeys cs rest := by
  rw [getAllDiffsKeys]
  split <;> simp_all

theorem gadk_cons_missing (cs : List (String × Diff)) (k : String) (rest : List String)
    (h : lookupD cs k = none) :
    getAllDiffsKeys cs (k :: rest) = getAllDiffsKeys cs rest := by
  rw [getAllDiffsKeys]
  split <;> simp_all


/-! ### Association list helpers -/

@[simp] theorem lookupV_nil (k : String) : lookupV [] k = none := rfl

theorem lookupV_cons (a : String) (v : Value) (o : List (String × Value)) (k : String) :
    lookupV ((a, v) :: o) k = if a = k then some v else lookupV o k := by
  unfold lookupV
  rcases h : (a == k) with _ | _
  · simp_all [List.find?_cons, h]
  · simp_all [List.find?_cons, h]

@[simp] theorem lookupD_nil (k : String) : lookupD [] k = none := rfl

theorem lookupD_cons (a : String) (c : Diff) (cs : List (String × Diff)) (k : String) :
    lookupD ((a, c) :: cs) k = if a = k then some c else lookupD cs k := by
  unfold lookupD
  rcases h : (a == k) with _ | _
  · simp_all [List.find?_cons, h]
  · simp_all [List.find?_cons, h]

/-! ### C8: ShouldIgnore is exact matching only -/

/-- C8: `ShouldIgnore(path)` returns true iff the path is string-equal to
one of the configured exact-match ignore paths, and the configured
regex-style `ignorePatterns` are never consulted (the result is invariant
under replacing the pattern list by any other). -/
theorem claim_C8 : ∀ (fields pats pats' : List String) (p : String),
    (Config.shouldIgnore ⟨fields, pats⟩ p = true ↔ p ∈ fields) ∧
    Config.shouldIgnore ⟨fields, pats⟩ p = Config.shouldIgnore ⟨fields, pats'⟩ p := by
  intro fields pats pats' p
  refine ⟨?_, rfl⟩
  constructor
  · intro h
    rcases List.any_eq_true.mp h with ⟨x, hx, hxp⟩
    rw [beq_iff_eq] at hxp
    exact hxp ▸ hx
  · intro h
    exact List.any_eq_true.mpr ⟨p, h, beq_self_eq_true p⟩

/-! ### C2: reflexivity of Compare -/

theorem compare_self_all (d : Differ) : ∀ n : Nat,
    (∀ v path, sizeOf v < n → (compareValues d v v path).type = .equal) ∧
    (∀ o path keys, sizeOf o < n → compareObjChildren d o o path keys = []) ∧
    (∀ o path, sizeOf o < n → (compareObjects d o o path).type = .equal) ∧
    (∀ a path idxs, sizeOf a < n → compareArrChildren d a a path idxs = []) ∧
    (∀ a path, sizeOf a < n → (compareArrays d a a path).type = .equal) := by
  intro n
  induction n using Nat.strong_induction_on with
  | _ n IH =>
    have hval : ∀ v path, sizeOf v < n → (compareValues d v v path).type = .equal := by
      intro v path hv
      match v with
      | .null => rw [cv_null_null]; rfl
      | .bool b => rw [cv_bool_bool]; simp
      | .num m => rw [cv_num_num]; simp
      | .str s => rw [cv_str_str]; simp
      | .obj o =>
        rw [cv_obj_obj]
        have hm : sizeOf o < sizeOf (Value.obj o) := by simp
        exact (IH (sizeOf (Value.obj o)) hv).2.2.1 o path hm
      | .arr a =>
        rw [cv_arr_arr]
        have hm : sizeOf a < sizeOf (Value.arr a) := by simp
        exact (IH (sizeOf (Value.arr a)) hv).2.2.2.2 a path hm
    have hobjc : ∀ o path keys, sizeOf o < n → compareObjChildren d o o path keys = [] := by
      intro o path keys ho
      induction keys with
      | nil => exact objc_nil d o o path
      | cons key rest ihk =>
        rcases hig : (!d.showAll && d.config.shouldIgnore (fieldPathFor path key)) with _ | _
        · cases hl : lookupV o key with
          | none => rw [objc_cons_missing d o o path key rest hig hl hl, ihk]
          | some v =>
            rw [objc_cons_both d o o path key rest v v hig hl hl, ihk]
            have hveq := hval v (fieldPathFor path key)
              (Nat.lt_trans (sizeOf_lookupV hl) ho)
            simp [hveq]
        · rw [objc_cons_ignored d o o path key rest hig, ihk]
    have hobj : ∀ o path, sizeOf o < n → (compareObjects d o o path).type = .equal := by
      intro o path ho
      rw [compareObjects_eq]
      rw [hobjc o path _ ho]
      rfl
    have harrc : ∀ a path idxs, sizeOf a < n → compareArrChildren d a a path idxs = [] := by
      intro a path idxs ha
      induction idxs with
      | nil => exact arrc_nil d a a path
      | cons i rest ihk =>
        cases hl : a[i]? with
        | none => rw [arrc_cons_missing d a a path i rest hl hl, ihk]
        | some v =>
          rw [arrc_cons_both d a a path i rest v v hl hl, ihk]
          have hveq := hval v (path ++ "[" ++ Nat.repr i ++ "]")
            (Nat.lt_trans (sizeOf_getElemV hl) ha)
          simp [hveq]
    have harr : ∀ a path, sizeOf a < n → (compareArrays d a a path).type = .equal := by
      intro a path ha
      rw [compareArrays_eq]
      rw [harrc a path _ ha]
      rfl
    exact ⟨hval, hobjc, hobj, harrc, harr⟩

/-- C2: reflexivity — for every Value object `x`, every rule set and every
`showAll` setting, `Compare(x, x)` has kind Equal. -/
theorem claim_C2 : ∀ (cfg : Config) (showAll : Bool) (x : List (String × Value)),
    ((Differ.mk cfg showAll).compare x x).type = DiffType.equal := by
  intro cfg showAll x
  exact (compare_self_all (Differ.mk cfg showAll) (sizeOf x + 1)).2.2.1 x ""
    (Nat.lt_succ_self _)

/-! ### C3: anti-symmetry of Compare -/

/-- Kind swap: Added and Removed exchange, Modified and Equal are fixed. -/
def swapType : DiffType → DiffType
  | .added => .removed
  | .removed => .added
  | .modified => .modified
  | .equal => .equal

mutual

/-- Swap a diff tree: exchange Added/Removed kinds and the
`Value1`/`Value2` payloads everywhere. -/
def swapDiff : Diff → Diff
  | .mk p t v1 v2 cs => .mk p (swapType t) v2 v1 (swapChildren cs)
termination_by d => sizeOf d

def swapChildren : List (String × Diff) → List (String × Diff)
  | [] => []
  | (k, c) :: rest => (k, swapDiff c) :: swapChildren rest
termination_by cs => sizeOf cs

end

@[simp] theorem swapType_added : swapType .added = .removed := rfl
@[simp] theorem swapType_removed : swapType .removed = .added := rfl
@[simp] theorem swapType_modified : swapType .modified = .modified := rfl
@[simp] theorem swapType_equal : swapType .equal = .equal := rfl

theorem swapType_eq_equal_iff (t : DiffType) : swapType t = .equal ↔ t = .equal := by
  cases t <;> simp [swapType]

@[simp] theorem swapDiff_mk (p t v1 v2 cs) :
    swapDiff (.mk p t v1 v2 cs) = .mk p (swapType t) v2 v1 (swapChildren cs) := by
  rw [swapDiff]

@[simp] theorem swapChildren_nil : swapChildren [] = [] := by
  rw [swapChildren]

@[simp] theorem swapChildren_cons (k : String) (c : Diff) (rest : List (String × Diff)) :
    swapChildren ((k, c) :: rest) = (k, swapDiff c) :: swapChildren rest := by
  rw [swapChildren]

theorem swapChildren_append (a b : List (String × Diff)) :
    swapChildren (a ++ b) = swapChildren a ++ swapChildren b := by
  induction a with
  | nil => simp
  | cons e rest ih => cases e; simp [ih]

theorem swapDiff_type (c : Diff) : (swapDiff c).type = swapType c.type := by
  cases c; simp

theorem sortedKeys_comm (o1 o2 : List (String × Value)) :
    sortedKeys o1 o2 = sortedKeys o2 o1 := by
  unfold sortedKeys
  haveI hA : IsAntisymm String (fun a b => a ≤ b) := ⟨fun a b => le_antisymm⟩
  have hperm : List.Perm (List.dedup (keysOf o1 ++ keysOf o2))
      (List.dedup (keysOf o2 ++ keysOf o1)) := by
    refine (List.perm_ext_iff_of_nodup (List.nodup_dedup _) (List.nodup_dedup _)).2 ?_
    intro a
    simp [List.mem_dedup, or_comm]
  refine List.eq_of_perm_of_sorted ?_ (List.sorted_insertionSort _ _)
    (List.sorted_insertionSort _ _)
  exact (List.perm_insertionSort _ _).trans (hperm.trans (List.perm_insertionSort _ _).symm)

theorem typeOfChildren_swap (cs : List (String × Diff)) :
    typeOfChildren (swapChildren cs) = swapType (typeOfChildren cs) := by
  cases cs with
  | nil => simp
  | cons e rest => cases e; simp

theorem compare_swap_all (d : Differ) : ∀ n : Nat,
    (∀ v1 v2 path, sizeOf v1 + sizeOf v2 < n →
      compareValues d v2 v1 path = swapDiff (compareValues d v1 v2 path)) ∧
    (∀ o1 o2 path keys, sizeOf o1 + sizeOf o2 < n →
      compareObjChildren d o2 o1 path keys =
        swapChildren (compareObjChildren d o1 o2 path keys)) ∧
    (∀ o1 o2 path, sizeOf o1 + sizeOf o2 < n →
      compareObjects d o2 o1 path = swapDiff (compareObjects d o1 o2 path)) ∧
    (∀ a1 a2 path idxs, sizeOf a1 + sizeOf a2 < n →
      compareArrChildren d a2 a1 path idxs =
        swapChildren (compareArrChildren d a1 a2 path idxs)) ∧
    (∀ a1 a2 path, sizeOf a1 + sizeOf a2 < n →
      compareArrays d a2 a1 path = swapDiff (compareArrays d a1 a2 path)) := by
  intro n
  induction n using Nat.strong_induction_on with
  | _ n IH =>
    have hval : ∀ v1 v2 path, sizeOf v1 + sizeOf v2 < n →
        compareValues d v2 v1 path = swapDiff (compareValues d v1 v2 path) := by
      intro v1 v2 path hv
      have hobjIH : ∀ o1 o2 path,
          1 + sizeOf o1 + 1 + sizeOf o2 ≤ n →
          compareObjects d o2 o1 path = swapDiff (compareObjects d o1 o2 path) := by
        intro o1 o2 path hsz
        exact (IH (sizeOf o1 + sizeOf o2 + 1) (by omega)).2.2.1 o1 o2 path (by omega)
      have harrIH : ∀ a1 a2 path,
          1 + sizeOf a1 + 1 + sizeOf a2 ≤ n →
          compareArrays d a2 a1 path = swapDiff (compareArrays d a1 a2 path) := by
        intro a1 a2 path hsz
        exact (IH (sizeOf a1 + sizeOf a2 + 1) (by omega)).2.2.2.2 a1 a2 path (by omega)
      cases v1 <;> cases v2 <;>
        first
        | (rw [cv_null_null]; simp)
        | (rw [cv_null_left d _ _ (by simp), cv_null_right d _ _ (by simp)]; simp)
        | (rw [cv_null_right d _ _ (by simp), cv_null_left d _ _ (by simp)]; simp)
        | (rw [cv_bool_bool, cv_bool_bool]
           rename_i b1 b2
           by_cases hb : b1 = b2
           · subst hb; simp
           · rw [if_neg hb, if_neg (fun hh => hb hh.symm)]; simp)
        | (rw [cv_num_num, cv_num_num]
           rename_i n1 n2
           by_cases hb : n1 = n2
           · subst hb; simp
           · rw [if_neg hb, if_neg (fun hh => hb hh.symm)]; simp)
        | (rw [cv_str_str, cv_str_str]
           rename_i s1 s2
           by_cases hb : s1 = s2
           · subst hb; simp
           · rw [if_neg hb, if_neg (fun hh => hb hh.symm)]; simp)
        | (rw [cv_obj_obj, cv_obj_obj]
           rename_i o1 o2
           refine hobjIH o1 o2 path ?_
           simp at hv
           omega)
        | (rw [cv_arr_arr, cv_arr_arr]
           rename_i a1 a2
           refine harrIH a1 a2 path ?_
           simp at hv
           omega)
        | (rw [cv_mismatch d _ _ path (by simp) (by simp) (by simp [typeTag]),
               cv_mismatch d _ _ path (by simp) (by simp) (by simp [typeTag])]
           simp)
    have hobjc : ∀ o1 o2 path keys, sizeOf o1 + sizeOf o2 < n →
        compareObjChildren d o2 o1 path keys =
          swapChildren (compareObjChildren d o1 o2 path keys) := by
      intro o1 o2 path keys ho
      induction keys with
      | nil => rw [objc_nil, objc_nil]; simp
      | cons key rest ihk =>
        rcases hig : (!d.showAll && d.config.shouldIgnore (fieldPathFor path key)) with _ | _
        · cases hl1 : lookupV o1 key with
          | none =>
            cases hl2 : lookupV o2 key with
            | none =>
              rw [objc_cons_missing d o2 o1 path key rest hig hl2 hl1,
                  objc_cons_missing d o1 o2 path key rest hig hl1 hl2, ihk]
            | some v2 =>
              rw [objc_cons_removed d o2 o1 path key rest v2 hig hl2 hl1,
                  objc_cons_added d o1 o2 path key rest v2 hig hl1 hl2]
              simp [ihk]
          | some v1 =>
            cases hl2 : lookupV o2 key with
            | none =>
              rw [objc_cons_added d o2 o1 path key rest v1 hig hl2 hl1,
                  objc_cons_removed d o1 o2 path key rest v1 hig hl1 hl2]
              simp [ihk]
            | some v2 =>
              rw [objc_cons_both d o2 o1 path key rest v2 v1 hig hl2 hl1,
                  objc_cons_both d o1 o2 path key rest v1 v2 hig hl1 hl2]
              have hsw : compareValues d v2 v1 (fieldPathFor path key) =
                  swapDiff (compareValues d v1 v2 (fieldPathFor path key)) := by
                refine hval v1 v2 _ ?_
                have s1 := sizeOf_lookupV hl1
                have s2 := sizeOf_lookupV hl2
                omega
              rw [hsw, swapChildren_append, ihk]
              rw [swapDiff_type]
              by_cases hcd : (compareValues d v1 v2 (fieldPathFor path key)).type =
                  DiffType.equal
              · rw [hcd]
                simp
              · rw [if_pos, if_pos hcd]
                · simp
                · rw [Ne, swapType_eq_equal_iff]
                  exact hcd
        · rw [objc_cons_ignored d o2 o1 path key rest hig,
              objc_cons_ignored d o1 o2 path key rest hig, ihk]
    have hobj : ∀ o1 o2 path, sizeOf o1 + sizeOf o2 < n →
        compareObjects d o2 o1 path = swapDiff (compareObjects d o1 o2 path) := by
      intro o1 o2 path ho
      rw [compareObjects_eq, compareObjects_eq]
      rw [sortedKeys_comm o2 o1]
      rw [hobjc o1 o2 path _ ho]
      simp [typeOfChildren_swap]
    have harrc : ∀ a1 a2 path idxs, sizeOf a1 + sizeOf a2 < n →
        compareArrChildren d a2 a1 path idxs =
          swapChildren (compareArrChildren d a1 a2 path idxs) := by
      intro a1 a2 path idxs ha
      induction idxs with
      | nil => rw [arrc_nil, arrc_nil]; simp
      | cons i rest ihk =>
        cases hl1 : a1[i]? with
        | none =>
          cases hl2 : a2[i]? with
          | none =>
            rw [arrc_cons_missing d a2 a1 path i rest hl2 hl1,
                arrc_cons_missing d a1 a2 path i rest hl1 hl2, ihk]
          | some v2 =>
            rw [arrc_cons_removed d a2 a1 path i rest v2 hl2 hl1,
                arrc_cons_added d a1 a2 path i rest v2 hl1 hl2]
            simp [ihk]
        | some v1 =>
          cases hl2 : a2[i]? with
          | none =>
            rw [arrc_cons_added d a2 a1 path i rest v1 hl2 hl1,
                arrc_cons_removed d a1 a2 path i rest v1 hl1 hl2]
            simp [ihk]
          | some v2 =>
            rw [arrc_cons_both d a2 a1 path i rest v2 v1 hl2 hl1,
                arrc_cons_both d a1 a2 path i rest v1 v2 hl1 hl2]
            have hsw : compareValues d v2 v1 (path ++ "[" ++ Nat.repr i ++ "]") =
                swapDiff (compareValues d v1 v2 (path ++ "[" ++ Nat.repr i ++ "]")) := by
              refine hval v1 v2 _ ?_
              have s1 := sizeOf_getElemV hl1
              have s2 := sizeOf_getElemV hl2
              omega
            rw [hsw, swapChildren_append, ihk]
            rw [swapDiff_type]
            by_cases hcd : (compareValues d v1 v2 (path ++ "[" ++ Nat.repr i ++ "]")).type =
                DiffType.equal
            · rw [hcd]
              simp
            · rw [if_pos, if_pos hcd]
              · simp
              · rw [Ne, swapType_eq_equal_iff]
                exact hcd
    have harr : ∀ a1 a2 path, sizeOf a1 + sizeOf a2 < n →
        compareArrays d a2 a1 path = swapDiff (compareArrays d a1 a2 path) := by
      intro a1 a2 path ha
      rw [compareArrays_eq, compareArrays_eq]
      rw [Nat.max_comm a2.length a1.length]
      rw [harrc a1 a2 path _ ha]
      simp [typeOfChildren_swap]
    exact ⟨hval, hobjc, hobj, harrc, harr⟩

/-- C3: anti-symmetry — `Compare(b, a)` is exactly the kind/payload swap of
`Compare(a, b)`: the same tree with the same paths and the same children
keys everywhere, in which every Added node becomes Removed (and vice
versa), Modified and Equal kinds are preserved, and the `before`/`after`
payloads (`Value1`/`Value2`) are exchanged at every node. -/
theorem claim_C3 : (∀ (cfg : Config) (sa : Bool) (a b : List (String × Value)),
      (Differ.mk cfg sa).compare b a = swapDiff ((Differ.mk cfg sa).compare a b)) ∧
    (∀ p t v1 v2 cs, swapDiff (.mk p t v1 v2 cs) = .mk p (swapType t) v2 v1 (swapChildren cs)) ∧
    swapType .added = .removed ∧ swapType .removed = .added ∧
    swapType .modified = .modified ∧ swapType .equal = .equal := by
  refine ⟨?_, swapDiff_mk, rfl, rfl, rfl, rfl⟩
  intro cfg sa a b
  exact (compare_swap_all (Differ.mk cfg sa) (sizeOf a + sizeOf b + 1)).2.2.1 a b ""
    (Nat.lt_succ_self _)

/-! ### Tree-wide invariants of Compare output (C10 and C5) -/

mutual

/-- `allNodesB P d`: the local predicate `P` holds at every node of the
diff tree `d`. -/
def allNodesB (P : Diff → Bool) : Diff → Bool
  | .mk p t v1 v2 cs => P (.mk p t v1 v2 cs) && allNodesChildrenB P cs
termination_by d => sizeOf d

def allNodesChildrenB (P : Diff → Bool) : List (String × Diff) → Bool
  | [] => true
  | (_, c) :: rest => allNodesB P c && allNodesChildrenB P rest
termination_by cs => sizeOf cs

end

@[simp] theorem allNodesB_mk (P : Diff → Bool) (p t v1 v2 cs) :
    allNodesB P (.mk p t v1 v2 cs) = (P (.mk p t v1 v2 cs) && allNodesChildrenB P cs) := by
  rw [allNodesB]

@[simp] theorem allNodesChildrenB_nil (P : Diff → Bool) : allNodesChildrenB P [] = true := by
  rw [allNodesChildrenB]

@[simp] theorem allNodesChildrenB_cons (P : Diff → Bool) (k : String) (c : Diff)
    (rest : List (String × Diff)) :
    allNodesChildrenB P ((k, c) :: rest) = (allNodesB P c && allNodesChildrenB P rest) := by
  rw [allNodesChildrenB]

theorem allNodesChildrenB_append (P : Diff → Bool) (a b : List (String × Diff)) :
    allNodesChildrenB P (a ++ b) = (allNodesChildrenB P a && allNodesChildrenB P b) := by
  induction a with
  | nil => simp
  | cons e rest ih => cases e; simp [ih, Bool.and_assoc]

/-- Every child entry recorded by the object key loop has non-Equal type. -/
theorem objc_entry_type (d : Differ) (o1 o2 : List (String × Value)) (path : String)
    (keys : List String) :
    ∀ e ∈ compareObjChildren d o1 o2 path keys, e.2.type ≠ DiffType.equal := by
  induction keys with
  | nil => rw [objc_nil]; intro e he; cases he
  | cons key rest ihk =>
    intro e he
    rcases hig : (!d.showAll && d.config.shouldIgnore (fieldPathFor path key)) with _ | _
    · cases hl1 : lookupV o1 key with
      | none =>
        cases hl2 : lookupV o2 key with
        | none =>
          rw [objc_cons_missing d o1 o2 path key rest hig hl1 hl2] at he
          exact ihk e he
        | some v2 =>
          rw [objc_cons_added d o1 o2 path key rest v2 hig hl1 hl2] at he
          rcases List.mem_cons.mp he with heq | he
          · subst heq; simp
          · exact ihk e he
      | some v1 =>
        cases hl2 : lookupV o2 key with
        | none =>
          rw [objc_cons_removed d o1 o2 path key rest v1 hig hl1 hl2] at he
          rcases List.mem_cons.mp he with heq | he
          · subst heq; simp
          · exact ihk e he
        | some v2 =>
          rw [objc_cons_both d o1 o2 path key rest v1 v2 hig hl1 hl2] at he
          rcases List.mem_append.mp he with he | he
          · by_cases hcd : (compareValues d v1 v2 (fieldPathFor path key)).type = DiffType.equal
            · rw [if_neg (fun hc => hc hcd)] at he
              cases he
            · rw [if_pos hcd] at he
              have heq := List.mem_singleton.mp he
              subst heq
              simpa using hcd
          · exact ihk e he
    · rw [objc_cons_ignored d o1 o2 path key rest hig] at he
      exact ihk e he

/-- Every child entry recorded by the array index loop has non-Equal type. -/
theorem arrc_entry_type (d : Differ) (a1 a2 : List Value) (path : String)
    (idxs : List Nat) :
    ∀ e ∈ compareArrChildren d a1 a2 path idxs, e.2.type ≠ DiffType.equal := by
  induction idxs with
  | nil => rw [arrc_nil]; intro e he; cases he
  | cons i rest ihk =>
    intro e he
    cases hl1 : a1[i]? with
    | none =>
      cases hl2 : a2[i]? with
      | none =>
        rw [arrc_cons_missing d a1 a2 path i rest hl1 hl2] at he
        exact ihk e he
      | some v2 =>
        rw [arrc_cons_added d a1 a2 path i rest v2 hl1 hl2] at he
        rcases List.mem_cons.mp he with heq | he
        · subst heq; simp
        · exact ihk e he
    | some v1 =>
      cases hl2 : a2[i]? with
      | none =>
        rw [arrc_cons_removed d a1 a2 path i rest v1 hl1 hl2] at he
        rcases List.mem_cons.mp he with heq | he
        · subst heq; simp
        · exact ihk e he
      | some v2 =>
        rw [arrc_cons_both d a1 a2 path i rest v1 v2 hl1 hl2] at he
        rcases List.mem_append.mp he with he | he
        · by_cases hcd : (compareValues d v1 v2 (path ++ "[" ++ Nat.repr i ++ "]")).type =
              DiffType.equal
          · rw [if_neg (fun hc => hc hcd)] at he
            cases he
          · rw [if_pos hcd] at he
            have heq := List.mem_singleton.mp he
            subst heq
            simpa using hcd
        · exact ihk e he

/-- Master lemma: if a local predicate `P` accepts every node shape that the
differ ever constructs, it holds at every node of every Compare result. -/
theorem compare_allNodes (d : Differ) (P : Diff → Bool)
    (hleafEq : ∀ path, P (.mk path .equal none none []) = true)
    (hleafAdd : ∀ path v, P (.mk path .added none (some v) []) = true)
    (hleafRem : ∀ path v, P (.mk path .removed (some v) none []) = true)
    (hleafMod : ∀ path v1 v2, P (.mk path .modified (some v1) (some v2) []) = true)
    (hnode : ∀ path cs, (∀ e ∈ cs, e.2.type ≠ DiffType.equal) →
      P (.mk path (typeOfChildren cs) none none cs) = true) : ∀ n : Nat,
    (∀ v1 v2 path, sizeOf v1 + sizeOf v2 < n →
      allNodesB P (compareValues d v1 v2 path) = true) ∧
    (∀ o1 o2 path keys, sizeOf o1 + sizeOf o2 < n →
      allNodesChildrenB P (compareObjChildren d o1 o2 path keys) = true) ∧
    (∀ o1 o2 path, sizeOf o1 + sizeOf o2 < n →
      allNodesB P (compareObjects d o1 o2 path) = true) ∧
    (∀ a1 a2 path idxs, sizeOf a1 + sizeOf a2 < n →
      allNodesChildrenB P (compareArrChildren d a1 a2 path idxs) = true) ∧
    (∀ a1 a2 path, sizeOf a1 + sizeOf a2 < n →
      allNodesB P (compareArrays d a1 a2 path) = true) := by
  intro n
  induction n using Nat.strong_induction_on with
  | _ n IH =>
    have hval : ∀ v1 v2 path, sizeOf v1 + sizeOf v2 < n →
        allNodesB P (compareValues d v1 v2 path) = true := by
      intro v1 v2 path hv
      have hobjIH : ∀ o1 o2 path,
          1 + sizeOf o1 + 1 + sizeOf o2 ≤ n →
          allNodesB P (compareObjects d o1 o2 path) = true := by
        intro o1 o2 path hsz
        exact (IH (sizeOf o1 + sizeOf o2 + 1) (by omega)).2.2.1 o1 o2 path (by omega)
      have harrIH : ∀ a1 a2 path,
          1 + sizeOf a1 + 1 + sizeOf a2 ≤ n →
          allNodesB P (compareArrays d a1 a2 path) = true := by
        intro a1 a2 path hsz
        exact (IH (sizeOf a1 + sizeOf a2 + 1) (by omega)).2.2.2.2 a1 a2 path (by omega)
      cases v1 <;> cases v2 <;>
        first
        | (rw [cv_null_null]; simp [hleafEq])
        | (rw [cv_null_left d _ _ (by simp)]; simp [hleafAdd])
        | (rw [cv_null_right d _ _ (by simp)]; simp [hleafRem])
        | (rw [cv_bool_bool]
           split <;> simp [hleafEq, hleafMod])
        | (rw [cv_num_num]
           split <;> simp [hleafEq, hleafMod])
        | (rw [cv_str_str]
           split <;> simp [hleafEq, hleafMod])
        | (rw [cv_obj_obj]
           rename_i o1 o2
           refine hobjIH o1 o2 path ?_
           simp at hv
           omega)
        | (rw [cv_arr_arr]
           rename_i a1 a2
           refine harrIH a1 a2 path ?_
           simp at hv
           omega)
        | (rw [cv_mismatch d _ _ path (by simp) (by simp) (by simp [typeTag])]
           simp [hleafMod])
    have hobjc : ∀ o1 o2 path keys, sizeOf o1 + sizeOf o2 < n →
        allNodesChildrenB P (compareObjChildren d o1 o2 path keys) = true := by
      intro o1 o2 path keys ho
      induction keys with
      | nil => rw [objc_nil]; simp
      | cons key rest ihk =>
        rcases hig : (!d.showAll && d.config.shouldIgnore (fieldPathFor path key)) with _ | _
        · cases hl1 : lookupV o1 key with
          | none =>
            cases hl2 : lookupV o2 key with
            | none => rw [objc_cons_missing d o1 o2 path key rest hig hl1 hl2]; exact ihk
            | some v2 =>
              rw [objc_cons_added d o1 o2 path key rest v2 hig hl1 hl2]
              simp [ihk, hleafAdd]
          | some v1 =>
            cases hl2 : lookupV o2 key with
            | none =>
              rw [objc_cons_removed d o1 o2 path key rest v1 hig hl1 hl2]
              simp [ihk, hleafRem]
            | some v2 =>
              rw [objc_cons_both d o1 o2 path key rest v1 v2 hig hl1 hl2]
              rw [allNodesChildrenB_append]
              have hcv : allNodesB P (compareValues d v1 v2 (fieldPathFor path key)) = true := by
                refine hval v1 v2 _ ?_
                have s1 := sizeOf_lookupV hl1
                have s2 := sizeOf_lookupV hl2
                omega
              split
              · simp [ihk, hcv]
              · simp [ihk]
        · rw [objc_cons_ignored d o1 o2 path key rest hig]; exact ihk
    have hobj : ∀ o1 o2 path, sizeOf o1 + sizeOf o2 < n →
        allNodesB P (compareObjects d o1 o2 path) = true := by
      intro o1 o2 path ho
      rw [compareObjects_eq]
      rw [allNodesB_mk, Bool.and_eq_true]
      exact ⟨hnode path _ (objc_entry_type d o1 o2 path _), hobjc o1 o2 path _ ho⟩
    have harrc : ∀ a1 a2 path idxs, sizeOf a1 + sizeOf a2 < n →
        allNodesChildrenB P (compareArrChildren d a1 a2 path idxs) = true := by
      intro a1 a2 path idxs ha
      induction idxs with
      | nil => rw [arrc_nil]; simp
      | cons i rest ihk =>
        cases hl1 : a1[i]? with
        | none =>
          cases hl2 : a2[i]? with
          | none => rw [arrc_cons_missing d a1 a2 path i rest hl1 hl2]; exact ihk
          | some v2 =>
            rw [arrc_cons_added d a1 a2 path i rest v2 hl1 hl2]
            simp [ihk, hleafAdd]
        | some v1 =>
          cases hl2 : a2[i]? with
          | none =>
            rw [arrc_cons_removed d a1 a2 path i rest v1 hl1 hl2]
            simp [ihk, hleafRem]
          | some v2 =>
            rw [arrc_cons_both d a1 a2 path i rest v1 v2 hl1 hl2]
            rw [allNodesChildrenB_append]
            have hcv : allNodesB P
                (compareValues d v1 v2 (path ++ "[" ++ Nat.repr i ++ "]")) = true := by
              refine hval v1 v2 _ ?_
              have s1 := sizeOf_getElemV hl1
              have s2 := sizeOf_getElemV hl2
              omega
            split
            · simp [ihk, hcv]
            · simp [ihk]
    have harr : ∀ a1 a2 path, sizeOf a1 + sizeOf a2 < n →
        allNodesB P (compareArrays d a1 a2 path) = true := by
      intro a1 a2 path ha
      rw [compareArrays_eq]
      rw [allNodesB_mk, Bool.and_eq_true]
      exact ⟨hnode path _ (arrc_entry_type d a1 a2 path _), harrc a1 a2 path _ ha⟩
    exact ⟨hval, hobjc, hobj, harrc, harr⟩

/-- Local node predicate for C10: all own children are non-Equal, and an
Equal node has no children. -/
def childrenNonEqualB : Diff → Bool
  | .mk _ t _ _ cs =>
    cs.all (fun e => !(e.2.type == DiffType.equal)) &&
      (match t, cs with
       | DiffType.equal, _ :: _ => false
       | _, _ => true)

/-- C10 (implicit): in every Diff tree returned by Compare, every entry of
every node's children map has kind different from Equal — Equal results are
dropped, not stored — and consequently every Equal node in the tree has an
empty children map. -/
theorem claim_C10 : ∀ (cfg : Config) (showAll : Bool) (o1 o2 : List (String × Value)),
    allNodesB childrenNonEqualB ((Differ.mk cfg showAll).compare o1 o2) = true := by
  intro cfg showAll o1 o2
  refine (compare_allNodes (Differ.mk cfg showAll) childrenNonEqualB
    (by intro path; rfl) (by intro path v; rfl) (by intro path v; rfl)
    (by intro path v1 v2; rfl) ?_ (sizeOf o1 + sizeOf o2 + 1)).2.2.1 o1 o2 ""
    (by omega)
  intro path cs hcs
  unfold childrenNonEqualB
  rw [Bool.and_eq_true]
  constructor
  · rw [List.all_eq_true]
    intro e he
    simpa using hcs e he
  · cases cs <;> simp [typeOfChildren]

/-- Local node predicate for the corrected C5: payloads determined by kind,
with Modified split between leaf nodes (both payloads) and interior nodes
(no payloads, children present). -/
def payloadByKindB : Diff → Bool
  | .mk _ t v1 v2 cs =>
    match t, v1, v2, cs with
    | DiffType.added, none, some _, _ => true
    | DiffType.removed, some _, none, _ => true
    | DiffType.equal, none, none, _ => true
    | DiffType.modified, some _, some _, [] => true
    | DiffType.modified, none, none, _ :: _ => true
    | _, _, _, _ => false

/-- Counterexample to C5 as stated: for `Compare({x:1}, {x:2})` the root of
the returned tree is a Modified node, yet it carries neither a `before`
nor an `after` payload (`Value1 = Value2 = nil`), contradicting "a
Modified node carries both". -/
theorem claim_C5_counterexample :
    ((Differ.mk ⟨[], []⟩ false).compare [("x", Value.num 1)] [("x", Value.num 2)]).type =
        DiffType.modified ∧
      ((Differ.mk ⟨[], []⟩ false).compare
          [("x", Value.num 1)] [("x", Value.num 2)]).value1 = none ∧
      ((Differ.mk ⟨[], []⟩ false).compare
          [("x", Value.num 1)] [("x", Value.num 2)]).value2 = none := by
  have hcs : compareObjChildren (Differ.mk ⟨[], []⟩ false)
      [("x", Value.num 1)] [("x", Value.num 2)] "" ["x"] =
      [("x", Diff.mk "x" .modified (some (.num 1)) (some (.num 2)) [])] := by
    rw [objc_cons_both (Differ.mk ⟨[], []⟩ false) [("x", Value.num 1)]
        [("x", Value.num 2)] "" "x" [] (.num 1) (.num 2) rfl rfl rfl]
    rw [cv_num_num]
    rw [if_neg (show ¬(1 : Int) = 2 by decide)]
    rw [objc_nil]
    simp [fieldPathFor]
  have hroot : (Differ.mk ⟨[], []⟩ false).compare [("x", Value.num 1)] [("x", Value.num 2)] =
      Diff.mk ""
        (typeOfChildren [("x", Diff.mk "x" .modified (some (.num 1)) (some (.num 2)) [])])
        none none
        [("x", Diff.mk "x" .modified (some (.num 1)) (some (.num 2)) [])] := by
    show compareObjects (Differ.mk ⟨[], []⟩ false)
        [("x", Value.num 1)] [("x", Value.num 2)] "" = _
    rw [compareObjects_eq]
    rw [show sortedKeys [("x", Value.num 1)] [("x", Value.num 2)] = ["x"] from rfl]
    rw [hcs]
  rw [hroot]
  refine ⟨rfl, rfl, rfl⟩

/-- C5 corrected: in every Compare result the payloads are determined by
the kind — Added carries only `after` (`Value2`), Removed carries only
`before` (`Value1`), Equal carries neither, and Modified splits: a
Modified leaf carries both payloads, while an interior Modified node (one
with children) carries neither. -/
theorem claim_C5 : ∀ (cfg : Config) (showAll : Bool) (o1 o2 : List (String × Value)),
    allNodesB payloadByKindB ((Differ.mk cfg showAll).compare o1 o2) = true := by
  intro cfg showAll o1 o2
  refine (compare_allNodes (Differ.mk cfg showAll) payloadByKindB
    (fun path => rfl) (fun path v => rfl) (fun path v => rfl)
    (fun path v1 v2 => rfl) ?_ (sizeOf o1 + sizeOf o2 + 1)).2.2.1 o1 o2 ""
    (by omega)
  intro path cs _
  cases cs <;> rfl

/-! ### C6: null handling -/

/-- C6: `Compare({x:null}, {x:5})` yields an Added child at path `x` with
`after = 5`; the reverse yields a Removed child with `before = 5`.  In
general, for a matched key where exactly one side is null, `compareValues`
returns Added (null on the left) or Removed (null on the right) — never
Modified. -/
theorem claim_C6 :
    ((Differ.mk ⟨[], []⟩ false).compare [("x", Value.null)] [("x", Value.num 5)] =
      Diff.mk "" .modified none none
        [("x", Diff.mk "x" .added none (some (.num 5)) [])]) ∧
    ((Differ.mk ⟨[], []⟩ false).compare [("x", Value.num 5)] [("x", Value.null)] =
      Diff.mk "" .modified none none
        [("x", Diff.mk "x" .removed (some (.num 5)) none [])]) ∧
    (∀ (d : Differ) (v : Value) (path : String), v ≠ Value.null →
      compareValues d Value.null v path = Diff.mk path .added none (some v) [] ∧
      compareValues d v Value.null path = Diff.mk path .removed (some v) none []) := by
  refine ⟨?_, ?_, fun d v path hv => ⟨cv_null_left d v path hv, cv_null_right d v path hv⟩⟩
  · have hcs : compareObjChildren (Differ.mk ⟨[], []⟩ false)
        [("x", Value.null)] [("x", Value.num 5)] "" ["x"] =
        [("x", Diff.mk "x" .added none (some (.num 5)) [])] := by
      rw [objc_cons_both (Differ.mk ⟨[], []⟩ false) [("x", Value.null)]
          [("x", Value.num 5)] "" "x" [] Value.null (.num 5) rfl rfl rfl]
      rw [cv_null_left (Differ.mk ⟨[], []⟩ false) (.num 5) _ (by simp)]
      rw [objc_nil]
      simp [fieldPathFor]
    show compareObjects (Differ.mk ⟨[], []⟩ false)
        [("x", Value.null)] [("x", Value.num 5)] "" = _
    rw [compareObjects_eq]
    rw [show sortedKeys [("x", Value.null)] [("x", Value.num 5)] = ["x"] from rfl]
    rw [hcs]
    rfl
  · have hcs : compareObjChildren (Differ.mk ⟨[], []⟩ false)
        [("x", Value.num 5)] [("x", Value.null)] "" ["x"] =
        [("x", Diff.mk "x" .removed (some (.num 5)) none [])] := by
      rw [objc_cons_both (Differ.mk ⟨[], []⟩ false) [("x", Value.num 5)]
          [("x", Value.null)] "" "x" [] (.num 5) Value.null rfl rfl rfl]
      rw [cv_null_right (Differ.mk ⟨[], []⟩ false) (.num 5) _ (by simp)]
      rw [objc_nil]
      simp [fieldPathFor]
    show compareObjects (Differ.mk ⟨[], []⟩ false)
        [("x", Value.num 5)] [("x", Value.null)] "" = _
    rw [compareObjects_eq]
    rw [show sortedKeys [("x", Value.num 5)] [("x", Value.null)] = ["x"] from rfl]
    rw [hcs]
    rfl

/-- Witness for C6 at a concrete input: the general null-vs-value rule
applied to `v := true` at path `"p"`. -/
theorem claim_C6_witness :
    (Value.bool true ≠ Value.null) ∧
    compareValues (Differ.mk ⟨[], []⟩ false) Value.null (Value.bool true) "p" =
      Diff.mk "p" .added none (some (Value.bool true)) [] ∧
    compareValues (Differ.mk ⟨[], []⟩ false) (Value.bool true) Value.null "p" =
      Diff.mk "p" .removed (some (Value.bool true)) none [] :=
  ⟨by simp,
   (claim_C6.2.2 (Differ.mk ⟨[], []⟩ false) (Value.bool true) "p" (by simp)).1,
   (claim_C6.2.2 (Differ.mk ⟨[], []⟩ false) (Value.bool true) "p" (by simp)).2⟩

/-! ### C7: positional array comparison -/

theorem arrc_cons_decomp (d : Differ) (a1 a2 : List Value) (path : String) (j : Nat)
    (rest : List Nat) :
    ∃ e, compareArrChildren d a1 a2 path (j :: rest) =
      e ++ compareArrChildren d a1 a2 path rest := by
  cases h1 : a1[j]? with
  | none =>
    cases h2 : a2[j]? with
    | none => exact ⟨[], by rw [arrc_cons_missing d a1 a2 path j rest h1 h2]; simp⟩
    | some v2 =>
      exact ⟨[("[" ++ Nat.repr j ++ "]",
        .mk (path ++ "[" ++ Nat.repr j ++ "]") .added none (some v2) [])],
        by rw [arrc_cons_added d a1 a2 path j rest v2 h1 h2]; simp⟩
  | some v1 =>
    cases h2 : a2[j]? with
    | none =>
      exact ⟨[("[" ++ Nat.repr j ++ "]",
        .mk (path ++ "[" ++ Nat.repr j ++ "]") .removed (some v1) none [])],
        by rw [arrc_cons_removed d a1 a2 path j rest v1 h1 h2]; simp⟩
    | some v2 =>
      refine ⟨_, arrc_cons_both d a1 a2 path j rest v1 v2 h1 h2⟩

theorem arrc_mem_added (d : Differ) (a1 a2 : List Value) (path : String) (idxs : List Nat)
    (i : Nat) (v : Value) (hi : i ∈ idxs) (h1 : a1[i]? = none) (h2 : a2[i]? = some v) :
    ("[" ++ Nat.repr i ++ "]", Diff.mk (path ++ "[" ++ Nat.repr i ++ "]") .added none (some v) [])
      ∈ compareArrChildren d a1 a2 path idxs := by
  induction idxs with
  | nil => cases hi
  | cons j rest ih =>
    rcases List.mem_cons.mp hi with rfl | hi2
    · rw [arrc_cons_added d a1 a2 path i rest v h1 h2]
      exact List.mem_cons_self _ _
    · obtain ⟨e, he⟩ := arrc_cons_decomp d a1 a2 path j rest
      rw [he]
      exact List.mem_append_right _ (ih hi2)

theorem arrc_mem_removed (d : Differ) (a1 a2 : List Value) (path : String) (idxs : List Nat)
    (i : Nat) (v : Value) (hi : i ∈ idxs) (h1 : a1[i]? = some v) (h2 : a2[i]? = none) :
    ("[" ++ Nat.repr i ++ "]", Diff.mk (path ++ "[" ++ Nat.repr i ++ "]") .removed (some v) none [])
      ∈ compareArrChildren d a1 a2 path idxs := by
  induction idxs with
  | nil => cases hi
  | cons j rest ih =>
    rcases List.mem_cons.mp hi with rfl | hi2
    · rw [arrc_cons_removed d a1 a2 path i rest v h1 h2]
      exact List.mem_cons_self _ _
    · obtain ⟨e, he⟩ := arrc_cons_decomp d a1 a2 path j rest
      rw [he]
      exact List.mem_append_right _ (ih hi2)

theorem arrc_mem_both (d : Differ) (a1 a2 : List Value) (path : String) (idxs : List Nat)
    (i : Nat) (v1 v2 : Value) (hi : i ∈ idxs) (h1 : a1[i]? = some v1) (h2 : a2[i]? = some v2)
    (hne : (compareValues d v1 v2 (path ++ "[" ++ Nat.repr i ++ "]")).type ≠ DiffType.equal) :
    ("[" ++ Nat.repr i ++ "]", compareValues d v1 v2 (path ++ "[" ++ Nat.repr i ++ "]"))
      ∈ compareArrChildren d a1 a2 path idxs := by
  induction idxs with
  | nil => cases hi
  | cons j rest ih =>
    rcases List.mem_cons.mp hi with rfl | hi2
    · rw [arrc_cons_both d a1 a2 path i rest v1 v2 h1 h2]
      rw [if_pos hne]
      exact List.mem_append_left _ (List.mem_singleton.mpr rfl)
    · obtain ⟨e, he⟩ := arrc_cons_decomp d a1 a2 path j rest
      rw [he]
      exact List.mem_append_right _ (ih hi2)

theorem lt_length_of_getElem?_some {a : List Value} {i : Nat} {v : Value}
    (h : a[i]? = some v) : i < a.length := by
  by_contra hged
  rw [List.getElem?_eq_none (Nat.le_of_not_lt hged)] at h
  cases h

/-- C7: array comparison is strictly positional over `[0, max(len1, len2))`.
Concretely `Compare({a:[1,2,3]}, {a:[0,1,2,3]})` yields a full cascade:
Modified at indices 0, 1 and 2 and Added at index 3 — not a single
localized insertion.  In general an index beyond the end of the first
array yields an Added child carrying the second array's element, an index
beyond the end of the second array yields a Removed child carrying the
first array's element, and an index present in both arrays is compared
element-against-element (the child being the value comparison at that
index whenever it is not Equal). -/
theorem claim_C7 :
    ((Differ.mk ⟨[], []⟩ false).compare
        [("a", Value.arr [Value.num 1, Value.num 2, Value.num 3])]
        [("a", Value.arr [Value.num 0, Value.num 1, Value.num 2, Value.num 3])] =
      Diff.mk "" .modified none none
        [("a", Diff.mk "a" .modified none none
          [("[0]", Diff.mk "a[0]" .modified (some (.num 1)) (some (.num 0)) []),
           ("[1]", Diff.mk "a[1]" .modified (some (.num 2)) (some (.num 1)) []),
           ("[2]", Diff.mk "a[2]" .modified (some (.num 3)) (some (.num 2)) []),
           ("[3]", Diff.mk "a[3]" .added none (some (.num 3)) [])])]) ∧
    (∀ (d : Differ) (a1 a2 : List Value) (path : String) (i : Nat) (v : Value),
      a1.length ≤ i → a2[i]? = some v →
      ("[" ++ Nat.repr i ++ "]",
        Diff.mk (path ++ "[" ++ Nat.repr i ++ "]") .added none (some v) [])
        ∈ (compareArrays d a1 a2 path).children) ∧
    (∀ (d : Differ) (a1 a2 : List Value) (path : String) (i : Nat) (v : Value),
      a2.length ≤ i → a1[i]? = some v →
      ("[" ++ Nat.repr i ++ "]",
        Diff.mk (path ++ "[" ++ Nat.repr i ++ "]") .removed (some v) none [])
        ∈ (compareArrays d a1 a2 path).children) ∧
    (∀ (d : Differ) (a1 a2 : List Value) (path : String) (i : Nat) (v1 v2 : Value),
      a1[i]? = some v1 → a2[i]? = some v2 →
      (compareValues d v1 v2 (path ++ "[" ++ Nat.repr i ++ "]")).type ≠ DiffType.equal →
      ("[" ++ Nat.repr i ++ "]", compareValues d v1 v2 (path ++ "[" ++ Nat.repr i ++ "]"))
        ∈ (compareArrays d a1 a2 path).children) := by
  refine ⟨?_, ?_, ?_, ?_⟩
  · have hcs : compareArrChildren (Differ.mk ⟨[], []⟩ false)
        [Value.num 1, Value.num 2, Value.num 3]
        [Value.num 0, Value.num 1, Value.num 2, Value.num 3] "a" [0, 1, 2, 3] =
        [("[0]", Diff.mk "a[0]" .modified (some (.num 1)) (some (.num 0)) []),
         ("[1]", Diff.mk "a[1]" .modified (some (.num 2)) (some (.num 1)) []),
         ("[2]", Diff.mk "a[2]" .modified (some (.num 3)) (some (.num 2)) []),
         ("[3]", Diff.mk "a[3]" .added none (some (.num 3)) [])] := by
      rw [arrc_cons_both (Differ.mk ⟨[], []⟩ false)
          [Value.num 1, Value.num 2, Value.num 3]
          [Value.num 0, Value.num 1, Value.num 2, Value.num 3] "a" 0 [1, 2, 3]
          (.num 1) (.num 0) rfl rfl]
      rw [arrc_cons_both (Differ.mk ⟨[], []⟩ false)
          [Value.num 1, Value.num 2, Value.num 3]
          [Value.num 0, Value.num 1, Value.num 2, Value.num 3] "a" 1 [2, 3]
          (.num 2) (.num 1) rfl rfl]
      rw [arrc_cons_both (Differ.mk ⟨[], []⟩ false)
          [Value.num 1, Value.num 2, Value.num 3]
          [Value.num 0, Value.num 1, Value.num 2, Value.num 3] "a" 2 [3]
          (.num 3) (.num 2) rfl rfl]
      rw [arrc_cons_added (Differ.mk ⟨[], []⟩ false)
          [Value.num 1, Value.num 2, Value.num 3]
          [Value.num 0, Value.num 1, Value.num 2, Value.num 3] "a" 3 []
          (.num 3) rfl rfl]
      rw [arrc_nil]
      rw [cv_num_num, cv_num_num, cv_num_num]
      rfl
    have harr : compareValues (Differ.mk ⟨[], []⟩ false)
        (.arr [Value.num 1, Value.num 2, Value.num 3])
        (.arr [Value.num 0, Value.num 1, Value.num 2, Value.num 3]) "a" =
        Diff.mk "a" .modified none none
          [("[0]", Diff.mk "a[0]" .modified (some (.num 1)) (some (.num 0)) []),
           ("[1]", Diff.mk "a[1]" .modified (some (.num 2)) (some (.num 1)) []),
           ("[2]", Diff.mk "a[2]" .modified (some (.num 3)) (some (.num 2)) []),
           ("[3]", Diff.mk "a[3]" .added none (some (.num 3)) [])] := by
      rw [cv_arr_arr, compareArrays_eq]
      rw [show List.range (max
          (List.length [Value.num 1, Value.num 2, Value.num 3])
          (List.length [Value.num 0, Value.num 1, Value.num 2, Value.num 3])) =
          [0, 1, 2, 3] from rfl]
      rw [hcs]
      rfl
    show compareObjects (Differ.mk ⟨[], []⟩ false) _ _ "" = _
    rw [compareObjects_eq]
    rw [show sortedKeys
        [("a", Value.arr [Value.num 1, Value.num 2, Value.num 3])]
        [("a", Value.arr [Value.num 0, Value.num 1, Value.num 2, Value.num 3])] =
        ["a"] from rfl]
    rw [objc_cons_both (Differ.mk ⟨[], []⟩ false)
        [("a", Value.arr [Value.num 1, Value.num 2, Value.num 3])]
        [("a", Value.arr [Value.num 0, Value.num 1, Value.num 2, Value.num 3])]
        "" "a" [] (.arr [Value.num 1, Value.num 2, Value.num 3])
        (.arr [Value.num 0, Value.num 1, Value.num 2, Value.num 3]) rfl rfl rfl]
    rw [show fieldPathFor "" "a" = "a" from rfl]
    rw [harr, objc_nil]
    rfl
  · intro d a1 a2 path i v hlen h2
    rw [compareArrays_eq, Diff.children_mk]
    refine arrc_mem_added d a1 a2 path _ i v ?_ (List.getElem?_eq_none hlen) h2
    rw [List.mem_range]
    have := lt_length_of_getElem?_some h2
    omega
  · intro d a1 a2 path i v hlen h1
    rw [compareArrays_eq, Diff.children_mk]
    refine arrc_mem_removed d a1 a2 path _ i v ?_ h1 (List.getElem?_eq_none hlen)
    rw [List.mem_range]
    have := lt_length_of_getElem?_some h1
    omega
  · intro d a1 a2 path i v1 v2 h1 h2 hne
    rw [compareArrays_eq, Diff.children_mk]
    refine arrc_mem_both d a1 a2 path _ i v1 v2 ?_ h1 h2 hne
    rw [List.mem_range]
    have := lt_length_of_getElem?_some h1
    omega

/-- Witness for C7 at concrete inputs: one Added child beyond the first
array's end, one Removed child beyond the second array's end, and one
Modified child for a matched index. -/
theorem claim_C7_witness :
    (("[" ++ Nat.repr 1 ++ "]",
        Diff.mk ("w" ++ "[" ++ Nat.repr 1 ++ "]") .added none (some (Value.num 7)) [])
      ∈ (compareArrays (Differ.mk ⟨[], []⟩ false)
          [Value.num 5] [Value.num 5, Value.num 7] "w").children) ∧
    (("[" ++ Nat.repr 1 ++ "]",
        Diff.mk ("w" ++ "[" ++ Nat.repr 1 ++ "]") .removed (some (Value.num 7)) none [])
      ∈ (compareArrays (Differ.mk ⟨[], []⟩ false)
          [Value.num 5, Value.num 7] [Value.num 5] "w").children) ∧
    (("[" ++ Nat.repr 0 ++ "]",
        compareValues (Differ.mk ⟨[], []⟩ false) (Value.num 5) (Value.num 6)
          ("w" ++ "[" ++ Nat.repr 0 ++ "]"))
      ∈ (compareArrays (Differ.mk ⟨[], []⟩ false)
          [Value.num 5] [Value.num 6] "w").children) :=
  ⟨claim_C7.2.1 (Differ.mk ⟨[], []⟩ false) [Value.num 5] [Value.num 5, Value.num 7] "w" 1
      (Value.num 7) (by decide) rfl,
   claim_C7.2.2.1 (Differ.mk ⟨[], []⟩ false) [Value.num 5, Value.num 7] [Value.num 5] "w" 1
      (Value.num 7) (by decide) rfl,
   claim_C7.2.2.2 (Differ.mk ⟨[], []⟩ false) [Value.num 5] [Value.num 6] "w" 0
      (Value.num 5) (Value.num 6) rfl rfl
      (by rw [cv_num_num, if_neg (show ¬(5 : Int) = 6 by decide)]; simp)⟩

/-! ### C1: the flattening collector -/

mutual

/-- Recursively duplicate-free children keys: the well-formedness every
tree representing Go `map[string]*Diff` children enjoys. -/
def keysNodup : Diff → Prop
  | .mk _ _ _ _ cs => (cs.map Prod.fst).Nodup ∧ keysNodupChildren cs
termination_by d => sizeOf d

def keysNodupChildren : List (String × Diff) → Prop
  | [] => True
  | (_, c) :: rest => keysNodup c ∧ keysNodupChildren rest
termination_by cs => sizeOf cs

end

theorem keysNodup_mk (p t v1 v2 cs) :
    keysNodup (.mk p t v1 v2 cs) = ((cs.map Prod.fst).Nodup ∧ keysNodupChildren cs) := by
  rw [keysNodup]

@[simp] theorem keysNodupChildren_nil : keysNodupChildren [] = True := by
  rw [keysNodupChildren]

@[simp] theorem keysNodupChildren_cons (k : String) (c : Diff) (rest : List (String × Diff)) :
    keysNodupChildren ((k, c) :: rest) = (keysNodup c ∧ keysNodupChildren rest) := by
  rw [keysNodupChildren]

theorem keysNodupChildren_mem {cs : List (String × Diff)} (h : keysNodupChildren cs)
    {e : String × Diff} (he : e ∈ cs) : keysNodup e.2 := by
  induction cs with
  | nil => cases he
  | cons f rest ih =>
    obtain ⟨k, c⟩ := f
    rw [keysNodupChildren_cons] at h
    rcases List.mem_cons.mp he with heq | he2
    · subst heq; exact h.1
    · exact ih h.2 he2

theorem sizeOf_insertionSort_pairs (r : String × Diff → String × Diff → Prop)
    [DecidableRel r] (cs : List (String × Diff)) :
    sizeOf (List.insertionSort r cs) = sizeOf cs :=
  (List.perm_insertionSort r cs).sizeOf_eq_sizeOf

mutual

/-- Modelled from the spec wording of §4.3 (amended to the order the code
uses): depth-first pre-order flattening that emits only non-Equal leaf
nodes and visits each node's children in lexicographically sorted key
order (plain string order, so the token for index 10 sorts before the
token for index 2). -/
def flattenSpec : Diff → List Diff
  | .mk p t v1 v2 cs =>
    (match t, cs with
     | DiffType.equal, _ => []
     | _, _ :: _ => []
     | _, [] => [Diff.mk p t v1 v2 cs]) ++
      flattenSpecChildren (List.insertionSort (fun a b => a.1 ≤ b.1) cs)
termination_by d => (sizeOf d, 0)
decreasing_by
  all_goals
    first
    | decreasing_tactic
    | (simp only [sizeOf_insertionSort_pairs]
       decreasing_tactic)

def flattenSpecChildren : List (String × Diff) → List Diff
  | [] => []
  | (_, c) :: rest => flattenSpec c ++ flattenSpecChildren rest
termination_by cs => (sizeOf cs, 1)

end

theorem flattenSpec_eq (p t v1 v2 cs) :
    flattenSpec (.mk p t v1 v2 cs) =
      (match t, cs with
       | DiffType.equal, _ => []
       | _, _ :: _ => []
       | _, [] => [Diff.mk p t v1 v2 cs]) ++
        flattenSpecChildren (List.insertionSort (fun a b => a.1 ≤ b.1) cs) := by
  rw [flattenSpec.eq_def]

@[simp] theorem flattenSpecChildren_nil : flattenSpecChildren [] = [] := by
  rw [flattenSpecChildren]

@[simp] theorem flattenSpecChildren_cons (k : String) (c : Diff)
    (rest : List (String × Diff)) :
    flattenSpecChildren ((k, c) :: rest) = flattenSpec c ++ flattenSpecChildren rest := by
  rw [flattenSpecChildren]

theorem lookupD_of_mem_nodup {cs : List (String × Diff)} (hnd : (cs.map Prod.fst).Nodup)
    {k : String} {c : Diff} (hm : (k, c) ∈ cs) : lookupD cs k = some c := by
  induction cs with
  | nil => cases hm
  | cons e rest ih =>
    obtain ⟨a, b⟩ := e
    simp only [List.map_cons, List.nodup_cons] at hnd
    rcases List.mem_cons.mp hm with heq | hm2
    · injection heq with h1 h2
      subst h1; subst h2
      rw [lookupD_cons]
      simp
    · rw [lookupD_cons]
      rw [if_neg ?_]
      · exact ih hnd.2 hm2
      · intro hak
        subst hak
        exact hnd.1 (List.mem_map.mpr ⟨(a, c), hm2, rfl⟩)

theorem map_fst_sortPairs (cs : List (String × Diff)) :
    List.map Prod.fst (List.insertionSort (fun a b : String × Diff => a.1 ≤ b.1) cs) =
      List.insertionSort (fun a b : String => a ≤ b) (cs.map Prod.fst) := by
  haveI hA : IsAntisymm String (fun a b : String => a ≤ b) := ⟨fun a b => le_antisymm⟩
  haveI hT : IsTotal (String × Diff) (fun a b : String × Diff => a.1 ≤ b.1) :=
    ⟨fun a b => le_total a.1 b.1⟩
  haveI hR : IsTrans (String × Diff) (fun a b : String × Diff => a.1 ≤ b.1) :=
    ⟨fun a b c hab hbc => le_trans hab hbc⟩
  refine List.eq_of_perm_of_sorted ?_ ?_ (List.sorted_insertionSort _ _)
  · exact ((List.perm_insertionSort _ cs).map Prod.fst).trans
      (List.perm_insertionSort _ _).symm
  · have hs := List.sorted_insertionSort (fun a b : String × Diff => a.1 ≤ b.1) cs
    exact List.Pairwise.map Prod.fst (fun a b hab => hab) hs

theorem getAllDiffs_eq_flattenSpec_all : ∀ n : Nat, ∀ d : Diff,
    sizeOf d < n → keysNodup d → getAllDiffs d = flattenSpec d := by
  intro n
  induction n using Nat.strong_induction_on with
  | _ n IH =>
    intro d hd hk
    obtain ⟨p, t, v1, v2, cs⟩ := d
    rw [keysNodup_mk] at hk
    rw [getAllDiffs_eq, flattenSpec_eq]
    congr 1
    rw [← map_fst_sortPairs]
    have hmem : ∀ e ∈ List.insertionSort (fun a b : String × Diff => a.1 ≤ b.1) cs,
        e ∈ cs := by
      intro e he
      exact (List.perm_insertionSort (fun a b : String × Diff => a.1 ≤ b.1) cs).mem_iff.mp he
    generalize hl : List.insertionSort (fun a b : String × Diff => a.1 ≤ b.1) cs = l at hmem
    clear hl
    induction l with
    | nil => rw [List.map_nil, gadk_nil, flattenSpecChildren_nil]
    | cons e rest ihl =>
      obtain ⟨k, c⟩ := e
      have hec : (k, c) ∈ cs := hmem _ (List.mem_cons_self _ _)
      rw [List.map_cons]
      rw [gadk_cons_found cs k (rest.map Prod.fst) c (lookupD_of_mem_nodup hk.1 hec)]
      rw [flattenSpecChildren_cons]
      congr 1
      · refine IH (sizeOf (Diff.mk p t v1 v2 cs)) hd c ?_ (keysNodupChildren_mem hk.2 hec)
        have h1 := List.sizeOf_lt_of_mem hec
        simp only [Prod.mk.sizeOf_spec] at h1
        simp only [Diff.mk.sizeOf_spec]
        omega
      · exact ihl (fun e he => hmem e (List.mem_cons_of_mem _ he))

/-- C1 corrected: `GetAllDiffs` flattens the tree depth-first pre-order,
emits only leaf nodes whose kind is not Equal, and visits each node's
children in plain lexicographically sorted key-string order — array index
tokens included, so the token for index 10 sorts before the token for
index 2 (not numerically, as the original claim stated).  Stated as
equality with the order-explicit specification function `flattenSpec`,
for every tree whose children maps are well-formed (duplicate-free keys). -/
theorem claim_C1 : ∀ dtree : Diff, keysNodup dtree → getAllDiffs dtree = flattenSpec dtree :=
  fun dtree hk =>
    getAllDiffs_eq_flattenSpec_all (sizeOf dtree + 1) dtree (Nat.lt_succ_self _) hk

/-- Witness for C1 at a concrete two-leaf tree. -/
theorem claim_C1_witness :
    keysNodup (Diff.mk "" .modified none none
      [("b", Diff.mk "b" .added none (some (Value.num 1)) []),
       ("a", Diff.mk "a" .removed (some (Value.num 2)) none [])]) ∧
    getAllDiffs (Diff.mk "" .modified none none
      [("b", Diff.mk "b" .added none (some (Value.num 1)) []),
       ("a", Diff.mk "a" .removed (some (Value.num 2)) none [])]) =
    flattenSpec (Diff.mk "" .modified none none
      [("b", Diff.mk "b" .added none (some (Value.num 1)) []),
       ("a", Diff.mk "a" .removed (some (Value.num 2)) none [])]) := by
  have hk : keysNodup (Diff.mk "" .modified none none
      [("b", Diff.mk "b" .added none (some (Value.num 1)) []),
       ("a", Diff.mk "a" .removed (some (Value.num 2)) none [])]) := by
    rw [keysNodup_mk]
    refine ⟨by simp, ?_⟩
    rw [keysNodupChildren_cons, keysNodup_mk, keysNodupChildren_cons, keysNodup_mk,
        keysNodupChildren_nil]
    simp
  exact ⟨hk, claim_C1 _ hk⟩

/-- Counterexample to C1 as stated: comparing two 11-element arrays that
differ at indices 2 and 10 only, the flattened sequence lists the leaf at
`a[10]` BEFORE the leaf at `a[2]` — `sort.Strings` sorts the index tokens
lexicographically, not numerically, so the token for index 10 does not
come after the token for index 2. -/
theorem claim_C1_counterexample :
    ((getAllDiffs ((Differ.mk ⟨[], []⟩ false).compare
        [("a", Value.arr [Value.num 0, Value.num 0, Value.num 0, Value.num 0, Value.num 0, Value.num 0, Value.num 0, Value.num 0, Value.num 0, Value.num 0, Value.num 0])]
        [("a", Value.arr [Value.num 0, Value.num 0, Value.num 1, Value.num 0, Value.num 0, Value.num 0, Value.num 0, Value.num 0, Value.num 0, Value.num 0, Value.num 1])])).map Diff.path = ["a[10]", "a[2]"]) ∧
    List.indexOf "a[10]"
        ((getAllDiffs ((Differ.mk ⟨[], []⟩ false).compare
          [("a", Value.arr [Value.num 0, Value.num 0, Value.num 0, Value.num 0, Value.num 0, Value.num 0, Value.num 0, Value.num 0, Value.num 0, Value.num 0, Value.num 0])]
          [("a", Value.arr [Value.num 0, Value.num 0, Value.num 1, Value.num 0, Value.num 0, Value.num 0, Value.num 0, Value.num 0, Value.num 0, Value.num 0, Value.num 1])])).map Diff.path) <
      List.indexOf "a[2]"
        ((getAllDiffs ((Differ.mk ⟨[], []⟩ false).compare
          [("a", Value.arr [Value.num 0, Value.num 0, Value.num 0, Value.num 0, Value.num 0, Value.num 0, Value.num 0, Value.num 0, Value.num 0, Value.num 0, Value.num 0])]
          [("a", Value.arr [Value.num 0, Value.num 0, Value.num 1, Value.num 0, Value.num 0, Value.num 0, Value.num 0, Value.num 0, Value.num 0, Value.num 0, Value.num 1])])).map Diff.path) := by
  have hle : ¬ (("[2]" : String) ≤ "[10]") := by
    rw [String.le_iff_toList_le]
    decide
  have hcs : compareArrChildren (Differ.mk ⟨[], []⟩ false)
      [Value.num 0, Value.num 0, Value.num 0, Value.num 0, Value.num 0, Value.num 0, Value.num 0, Value.num 0, Value.num 0, Value.num 0, Value.num 0]
      [Value.num 0, Value.num 0, Value.num 1, Value.num 0, Value.num 0, Value.num 0, Value.num 0, Value.num 0, Value.num 0, Value.num 0, Value.num 1] "a" [0, 1, 2, 3, 4, 5, 6, 7, 8, 9, 10] =
      [("[2]", Diff.mk "a[2]" .modified (some (.num 0)) (some (.num 1)) []),
       ("[10]", Diff.mk "a[10]" .modified (some (.num 0)) (some (.num 1)) [])] := by
      rw [arrc_cons_both (Differ.mk ⟨[], []⟩ false)
          [Value.num 0, Value.num 0, Value.num 0, Value.num 0, Value.num 0, Value.num 0, Value.num 0, Value.num 0, Value.num 0, Value.num 0, Value.num 0]
          [Value.num 0, Value.num 0, Value.num 1, Value.num 0, Value.num 0, Value.num 0, Value.num 0, Value.num 0, Value.num 0, Value.num 0, Value.num 1] "a" 0 [1, 2, 3, 4, 5, 6, 7, 8, 9, 10]
          (.num 0) (.num 0) rfl rfl]
      rw [arrc_cons_both (Differ.mk ⟨[], []⟩ false)
          [Value.num 0, Value.num 0, Value.num 0, Value.num 0, Value.num 0, Value.num 0, Value.num 0, Value.num 0, Value.num 0, Value.num 0, Value.num 0]
          [Value.num 0, Value.num 0, Value.num 1, Value.num 0, Value.num 0, Value.num 0, Value.num 0, Value.num 0, Value.num 0, Value.num 0, Value.num 1] "a" 1 [2, 3, 4, 5, 6, 7, 8, 9, 10]
          (.num 0) (.num 0) rfl rfl]
      rw [arrc_cons_both (Differ.mk ⟨[], []⟩ false)
          [Value.num 0, Value.num 0, Value.num 0, Value.num 0, Value.num 0, Value.num 0, Value.num 0, Value.num 0, Value.num 0, Value.num 0, Value.num 0]
          [Value.num 0, Value.num 0, Value.num 1, Value.num 0, Value.num 0, Value.num 0, Value.num 0, Value.num 0, Value.num 0, Value.num 0, Value.num 1] "a" 2 [3, 4, 5, 6, 7, 8, 9, 10]
          (.num 0) (.num 1) rfl rfl]
      rw [arrc_cons_both (Differ.mk ⟨[], []⟩ false)
          [Value.num 0, Value.num 0, Value.num 0, Value.num 0, Value.num 0, Value.num 0, Value.num 0, Value.num 0, Value.num 0, Value.num 0, Value.num 0]
          [Value.num 0, Value.num 0, Value.num 1, Value.num 0, Value.num 0, Value.num 0, Value.num 0, Value.num 0, Value.num 0, Value.num 0, Value.num 1] "a" 3 [4, 5, 6, 7, 8, 9, 10]
          (.num 0) (.num 0) rfl rfl]
      rw [arrc_cons_both (Differ.mk ⟨[], []⟩ false)
          [Value.num 0, Value.num 0, Value.num 0, Value.num 0, Value.num 0, Value.num 0, Value.num 0, Value.num 0, Value.num 0, Value.num 0, Value.num 0]
          [Value.num 0, Value.num 0, Value.num 1, Value.num 0, Value.num 0, Value.num 0, Value.num 0, Value.num 0, Value.num 0, Value.num 0, Value.num 1] "a" 4 [5, 6, 7, 8, 9, 10]
          (.num 0) (.num 0) rfl rfl]
      rw [arrc_cons_both (Differ.mk ⟨[], []⟩ false)
          [Value.num 0, Value.num 0, Value.num 0, Value.num 0, Value.num 0, Value.num 0, Value.num 0, Value.num 0, Value.num 0, Value.num 0, Value.num 0]
          [Value.num 0, Value.num 0, Value.num 1, Value.num 0, Value.num 0, Value.num 0, Value.num 0, Value.num 0, Value.num 0, Value.num 0, Value.num 1] "a" 5 [6, 7, 8, 9, 10]
          (.num 0) (.num 0) rfl rfl]
      rw [arrc_cons_both (Differ.mk ⟨[], []⟩ false)
          [Value.num 0, Value.num 0, Value.num 0, Value.num 0, Value.num 0, Value.num 0, Value.num 0, Value.num 0, Value.num 0, Value.num 0, Value.num 0]
          [Value.num 0, Value.num 0, Value.num 1, Value.num 0, Value.num 0, Value.num 0, Value.num 0, Value.num 0, Value.num 0, Value.num 0, Value.num 1] "a" 6 [7, 8, 9, 10]
          (.num 0) (.num 0) rfl rfl]
      rw [arrc_cons_both (Differ.mk ⟨[], []⟩ false)
          [Value.num 0, Value.num 0, Value.num 0, Value.num 0, Value.num 0, Value.num 0, Value.num 0, Value.num 0, Value.num 0, Value.num 0, Value.num 0]
          [Value.num 0, Value.num 0, Value.num 1, Value.num 0, Value.num 0, Value.num 0, Value.num 0, Value.num 0, Value.num 0, Value.num 0, Value.num 1] "a" 7 [8, 9, 10]
          (.num 0) (.num 0) rfl rfl]
      rw [arrc_cons_both (Differ.mk ⟨[], []⟩ false)
          [Value.num 0, Value.num 0, Value.num 0, Value.num 0, Value.num 0, Value.num 0, Value.num 0, Value.num 0, Value.num 0, Value.num 0, Value.num 0]
          [Value.num 0, Value.num 0, Value.num 1, Value.num 0, Value.num 0, Value.num 0, Value.num 0, Value.num 0, Value.num 0, Value.num 0, Value.num 1] "a" 8 [9, 10]
          (.num 0) (.num 0) rfl rfl]
      rw [arrc_cons_both (Differ.mk ⟨[], []⟩ false)
          [Value.num 0, Value.num 0, Value.num 0, Value.num 0, Value.num 0, Value.num 0, Value.num 0, Value.num 0, Value.num 0, Value.num 0, Value.num 0]
          [Value.num 0, Value.num 0, Value.num 1, Value.num 0, Value.num 0, Value.num 0, Value.num 0, Value.num 0, Value.num 0, Value.num 0, Value.num 1] "a" 9 [10]
          (.num 0) (.num 0) rfl rfl]
      rw [arrc_cons_both (Differ.mk ⟨[], []⟩ false)
          [Value.num 0, Value.num 0, Value.num 0, Value.num 0, Value.num 0, Value.num 0, Value.num 0, Value.num 0, Value.num 0, Value.num 0, Value.num 0]
          [Value.num 0, Value.num 0, Value.num 1, Value.num 0, Value.num 0, Value.num 0, Value.num 0, Value.num 0, Value.num 0, Value.num 0, Value.num 1] "a" 10 []
          (.num 0) (.num 1) rfl rfl]
      rw [arrc_nil]
      simp only [cv_num_num]
      rfl
  have harrv : compareValues (Differ.mk ⟨[], []⟩ false)
      (.arr [Value.num 0, Value.num 0, Value.num 0, Value.num 0, Value.num 0, Value.num 0, Value.num 0, Value.num 0, Value.num 0, Value.num 0, Value.num 0])
      (.arr [Value.num 0, Value.num 0, Value.num 1, Value.num 0, Value.num 0, Value.num 0, Value.num 0, Value.num 0, Value.num 0, Value.num 0, Value.num 1]) "a" =
      Diff.mk "a" .modified none none
        [("[2]", Diff.mk "a[2]" .modified (some (.num 0)) (some (.num 1)) []),
         ("[10]", Diff.mk "a[10]" .modified (some (.num 0)) (some (.num 1)) [])] := by
    rw [cv_arr_arr, compareArrays_eq]
    rw [show List.range (max
        (List.length [Value.num 0, Value.num 0, Value.num 0, Value.num 0, Value.num 0, Value.num 0, Value.num 0, Value.num 0, Value.num 0, Value.num 0, Value.num 0])
        (List.length [Value.num 0, Value.num 0, Value.num 1, Value.num 0, Value.num 0, Value.num 0, Value.num 0, Value.num 0, Value.num 0, Value.num 0, Value.num 1])) = [0, 1, 2, 3, 4, 5, 6, 7, 8, 9, 10] from rfl]
    rw [hcs]
    rfl
  have hroot : (Differ.mk ⟨[], []⟩ false).compare
      [("a", Value.arr [Value.num 0, Value.num 0, Value.num 0, Value.num 0, Value.num 0, Value.num 0, Value.num 0, Value.num 0, Value.num 0, Value.num 0, Value.num 0])]
      [("a", Value.arr [Value.num 0, Value.num 0, Value.num 1, Value.num 0, Value.num 0, Value.num 0, Value.num 0, Value.num 0, Value.num 0, Value.num 0, Value.num 1])] =
      Diff.mk "" .modified none none
        [("a", Diff.mk "a" .modified none none
          [("[2]", Diff.mk "a[2]" .modified (some (.num 0)) (some (.num 1)) []),
           ("[10]", Diff.mk "a[10]" .modified (some (.num 0)) (some (.num 1)) [])])] := by
    show compareObjects (Differ.mk ⟨[], []⟩ false) _ _ "" = _
    rw [compareObjects_eq]
    rw [show sortedKeys
        [("a", Value.arr [Value.num 0, Value.num 0, Value.num 0, Value.num 0, Value.num 0, Value.num 0, Value.num 0, Value.num 0, Value.num 0, Value.num 0, Value.num 0])]
        [("a", Value.arr [Value.num 0, Value.num 0, Value.num 1, Value.num 0, Value.num 0, Value.num 0, Value.num 0, Value.num 0, Value.num 0, Value.num 0, Value.num 1])] = ["a"] from rfl]
    rw [objc_cons_both (Differ.mk ⟨[], []⟩ false)
        [("a", Value.arr [Value.num 0, Value.num 0, Value.num 0, Value.num 0, Value.num 0, Value.num 0, Value.num 0, Value.num 0, Value.num 0, Value.num 0, Value.num 0])]
        [("a", Value.arr [Value.num 0, Value.num 0, Value.num 1, Value.num 0, Value.num 0, Value.num 0, Value.num 0, Value.num 0, Value.num 0, Value.num 0, Value.num 1])]
        "" "a" [] (.arr [Value.num 0, Value.num 0, Value.num 0, Value.num 0, Value.num 0, Value.num 0, Value.num 0, Value.num 0, Value.num 0, Value.num 0, Value.num 0])
        (.arr [Value.num 0, Value.num 0, Value.num 1, Value.num 0, Value.num 0, Value.num 0, Value.num 0, Value.num 0, Value.num 0, Value.num 0, Value.num 1]) rfl rfl rfl]
    rw [show fieldPathFor "" "a" = "a" from rfl]
    rw [harrv, objc_nil]
    rfl
  have hpaths : (getAllDiffs ((Differ.mk ⟨[], []⟩ false).compare
      [("a", Value.arr [Value.num 0, Value.num 0, Value.num 0, Value.num 0, Value.num 0, Value.num 0, Value.num 0, Value.num 0, Value.num 0, Value.num 0, Value.num 0])]
      [("a", Value.arr [Value.num 0, Value.num 0, Value.num 1, Value.num 0, Value.num 0, Value.num 0, Value.num 0, Value.num 0, Value.num 0, Value.num 0, Value.num 1])])).map Diff.path = ["a[10]", "a[2]"] := by
    rw [hroot]
    rw [getAllDiffs_interior "" .modified none none _ (by decide) (by simp)]
    rw [show List.insertionSort (fun a b : String => a ≤ b) (List.map Prod.fst
        [("a", Diff.mk "a" .modified none none
          [("[2]", Diff.mk "a[2]" .modified (some (.num 0)) (some (.num 1)) []),
           ("[10]", Diff.mk "a[10]" .modified (some (.num 0)) (some (.num 1)) [])])]) =
        ["a"] from rfl]
    rw [gadk_cons_found
        [("a", Diff.mk "a" .modified none none
          [("[2]", Diff.mk "a[2]" .modified (some (.num 0)) (some (.num 1)) []),
           ("[10]", Diff.mk "a[10]" .modified (some (.num 0)) (some (.num 1)) [])])] "a" []
        (Diff.mk "a" .modified none none
          [("[2]", Diff.mk "a[2]" .modified (some (.num 0)) (some (.num 1)) []),
           ("[10]", Diff.mk "a[10]" .modified (some (.num 0)) (some (.num 1)) [])]) rfl]
    rw [gadk_nil]
    rw [getAllDiffs_interior "a" .modified none none _ (by decide) (by simp)]
    rw [show List.map Prod.fst
        [("[2]", Diff.mk "a[2]" .modified (some (.num 0)) (some (.num 1)) []),
         ("[10]", Diff.mk "a[10]" .modified (some (.num 0)) (some (.num 1)) [])] =
        ["[2]", "[10]"] from rfl]
    rw [show List.insertionSort (fun a b : String => a ≤ b) ["[2]", "[10]"] =
        ["[10]", "[2]"] from by
      rw [List.insertionSort, List.insertionSort, List.insertionSort]
      rw [List.orderedInsert, List.orderedInsert, if_neg hle, List.orderedInsert]]
    rw [gadk_cons_found
        [("[2]", Diff.mk "a[2]" .modified (some (.num 0)) (some (.num 1)) []),
           ("[10]", Diff.mk "a[10]" .modified (some (.num 0)) (some (.num 1)) [])] "[10]" ["[2]"]
        (Diff.mk "a[10]" .modified (some (.num 0)) (some (.num 1)) []) rfl]
    rw [gadk_cons_found
        [("[2]", Diff.mk "a[2]" .modified (some (.num 0)) (some (.num 1)) []),
           ("[10]", Diff.mk "a[10]" .modified (some (.num 0)) (some (.num 1)) [])] "[2]" []
        (Diff.mk "a[2]" .modified (some (.num 0)) (some (.num 1)) []) rfl]
    rw [gadk_nil]
    rw [getAllDiffs_leaf "a[10]" .modified (some (.num 0)) (some (.num 1)) (by decide)]
    rw [getAllDiffs_leaf "a[2]" .modified (some (.num 0)) (some (.num 1)) (by decide)]
    rfl
  refine ⟨hpaths, ?_⟩
  rw [hpaths]
  decide

/-! ### C4: decimal representation facts (injectivity of index tokens) -/

/-- Reference decimal digit-list form of a natural number. -/
def toDigitsA (n : Nat) : List Char :=
  if h : n < 10 then [Nat.digitChar n]
  else toDigitsA (n / 10) ++ [Nat.digitChar (n % 10)]
termination_by n
decreasing_by
  exact Nat.div_lt_self (by omega) (by omega)

theorem toDigitsA_small {n : Nat} (h : n < 10) : toDigitsA n = [Nat.digitChar n] := by
  rw [toDigitsA]
  rw [dif_pos h]

theorem toDigitsA_large {n : Nat} (h : ¬ n < 10) :
    toDigitsA n = toDigitsA (n / 10) ++ [Nat.digitChar (n % 10)] := by
  rw [toDigitsA]
  rw [dif_neg h]

theorem toDigitsA_ne_nil (n : Nat) : toDigitsA n ≠ [] := by
  by_cases h : n < 10
  · rw [toDigitsA_small h]; simp
  · rw [toDigitsA_large h]; simp

theorem toDigitsCore_eq_toDigitsA : ∀ n : Nat, ∀ fuel acc, n < fuel →
    Nat.toDigitsCore 10 fuel n acc = toDigitsA n ++ acc := by
  intro n
  induction n using Nat.strong_induction_on with
  | _ n IH =>
    intro fuel acc hfuel
    match fuel with
    | f + 1 =>
      rw [Nat.toDigitsCore]
      by_cases h0 : n / 10 = 0
      · rw [if_pos h0]
        have hn : n < 10 := by omega
        rw [toDigitsA_small hn, Nat.mod_eq_of_lt hn]
        rfl
      · rw [if_neg h0]
        have hlt : n / 10 < n := Nat.div_lt_self (by omega) (by omega)
        have hf : n / 10 < f := by omega
        rw [IH (n / 10) hlt f (Nat.digitChar (n % 10) :: acc) hf]
        rw [toDigitsA_large (show ¬ n < 10 by omega)]
        simp

theorem digitChar_inj_fin : ∀ a b : Fin 10,
    Nat.digitChar a.val = Nat.digitChar b.val → a = b := by decide

theorem digitChar_inj {a b : Nat} (ha : a < 10) (hb : b < 10)
    (h : Nat.digitChar a = Nat.digitChar b) : a = b := by
  have := digitChar_inj_fin ⟨a, ha⟩ ⟨b, hb⟩ h
  exact congrArg Fin.val this

theorem toDigitsA_inj : ∀ m : Nat, ∀ n : Nat, toDigitsA m = toDigitsA n → m = n := by
  intro m
  induction m using Nat.strong_induction_on with
  | _ m IH =>
    intro n h
    by_cases hm : m < 10
    · by_cases hn : n < 10
      · rw [toDigitsA_small hm, toDigitsA_small hn] at h
        exact digitChar_inj hm hn (List.singleton_inj.mp h)
      · rw [toDigitsA_small hm, toDigitsA_large hn] at h
        have hlen := congrArg List.length h
        rcases List.exists_cons_of_ne_nil (toDigitsA_ne_nil (n / 10)) with ⟨c, cs, hc⟩
        rw [hc] at hlen
        simp at hlen
    · by_cases hn : n < 10
      · rw [toDigitsA_large hm, toDigitsA_small hn] at h
        have hlen := congrArg List.length h
        rcases List.exists_cons_of_ne_nil (toDigitsA_ne_nil (m / 10)) with ⟨c, cs, hc⟩
        rw [hc] at hlen
        simp at hlen
      · rw [toDigitsA_large hm, toDigitsA_large hn] at h
        have hsplit := List.append_inj h ?_
        · have h1 : m / 10 = n / 10 :=
            IH (m / 10) (Nat.div_lt_self (by omega) (by omega)) (n / 10) hsplit.1
          have h2 : m % 10 = n % 10 := by
            have := List.singleton_inj.mp hsplit.2
            exact digitChar_inj (Nat.mod_lt _ (by omega)) (Nat.mod_lt _ (by omega)) this
          omega
        · have hlen := congrArg List.length h
          simp at hlen
          omega

theorem natRepr_inj {m n : Nat} (h : Nat.repr m = Nat.repr n) : m = n := by
  unfold Nat.repr at h
  have hdata := congrArg String.data h
  simp only [List.asString] at hdata
  unfold Nat.toDigits at hdata
  rw [toDigitsCore_eq_toDigitsA m (m + 1) [] (Nat.lt_succ_self m),
      toDigitsCore_eq_toDigitsA n (n + 1) [] (Nat.lt_succ_self n)] at hdata
  simp only [List.append_nil] at hdata
  exact toDigitsA_inj m n hdata

/-- The `"[%d]"` index key tokens are injective in the index. -/
theorem idxKey_inj {i j : Nat}
    (h : ("[" ++ Nat.repr i ++ "]" : String) = "[" ++ Nat.repr j ++ "]") : i = j := by
  have hdata := congrArg String.data h
  simp only [String.data_append] at hdata
  have h2 : (Nat.repr i).data = (Nat.repr j).data := by
    rw [List.append_assoc, List.append_assoc] at hdata
    have h4 := (List.append_right_inj _).mp hdata
    exact (List.append_left_inj _).mp h4
  exact natRepr_inj (String.toList_inj.mp h2)

/-! ### C4: children keys of Compare output are duplicate-free -/

theorem objc_keys_sublist (d : Differ) (o1 o2 : List (String × Value)) (path : String) :
    ∀ keys : List String,
      ((compareObjChildren d o1 o2 path keys).map Prod.fst).Sublist keys := by
  intro keys
  induction keys with
  | nil => rw [objc_nil]; simp
  | cons key rest ih =>
    rcases hig : (!d.showAll && d.config.shouldIgnore (fieldPathFor path key)) with _ | _
    · cases hl1 : lookupV o1 key with
      | none =>
        cases hl2 : lookupV o2 key with
        | none =>
          rw [objc_cons_missing d o1 o2 path key rest hig hl1 hl2]
          exact ih.cons key
        | some v2 =>
          rw [objc_cons_added d o1 o2 path key rest v2 hig hl1 hl2]
          rw [List.map_cons]
          exact ih.cons₂ key
      | some v1 =>
        cases hl2 : lookupV o2 key with
        | none =>
          rw [objc_cons_removed d o1 o2 path key rest v1 hig hl1 hl2]
          rw [List.map_cons]
          exact ih.cons₂ key
        | some v2 =>
          rw [objc_cons_both d o1 o2 path key rest v1 v2 hig hl1 hl2]
          split
          · rw [List.singleton_append, List.map_cons]
            exact ih.cons₂ key
          · rw [List.nil_append]
            exact ih.cons key
    · rw [objc_cons_ignored d o1 o2 path key rest hig]
      exact ih.cons key

theorem arrc_keys_sublist (d : Differ) (a1 a2 : List Value) (path : String) :
    ∀ idxs : List Nat,
      ((compareArrChildren d a1 a2 path idxs).map Prod.fst).Sublist
        (idxs.map (fun i => "[" ++ Nat.repr i ++ "]")) := by
  intro idxs
  induction idxs with
  | nil => rw [arrc_nil]; simp
  | cons i rest ih =>
    rw [List.map_cons]
    cases hl1 : a1[i]? with
    | none =>
      cases hl2 : a2[i]? with
      | none =>
        rw [arrc_cons_missing d a1 a2 path i rest hl1 hl2]
        exact ih.cons _
      | some v2 =>
        rw [arrc_cons_added d a1 a2 path i rest v2 hl1 hl2]
        rw [List.map_cons]
        exact ih.cons₂ _
    | some v1 =>
      cases hl2 : a2[i]? with
      | none =>
        rw [arrc_cons_removed d a1 a2 path i rest v1 hl1 hl2]
        rw [List.map_cons]
        exact ih.cons₂ _
      | some v2 =>
        rw [arrc_cons_both d a1 a2 path i rest v1 v2 hl1 hl2]
        split
        · rw [List.singleton_append, List.map_cons]
          exact ih.cons₂ _
        · rw [List.nil_append]
          exact ih.cons _

theorem sortedKeys_nodup (o1 o2 : List (String × Value)) : (sortedKeys o1 o2).Nodup := by
  unfold sortedKeys
  exact (List.perm_insertionSort _ _).nodup_iff.mpr (List.nodup_dedup _)

theorem objc_keys_nodup (d : Differ) (o1 o2 : List (String × Value)) (path : String) :
    ((compareObjChildren d o1 o2 path (sortedKeys o1 o2)).map Prod.fst).Nodup :=
  (objc_keys_sublist d o1 o2 path (sortedKeys o1 o2)).nodup (sortedKeys_nodup o1 o2)

theorem arrc_keys_nodup (d : Differ) (a1 a2 : List Value) (path : String) (n : Nat) :
    ((compareArrChildren d a1 a2 path (List.range n)).map Prod.fst).Nodup := by
  refine (arrc_keys_sublist d a1 a2 path (List.range n)).nodup ?_
  refine List.Nodup.map ?_ (List.nodup_range n)
  intro i j hij
  exact idxKey_inj hij

/-! ### C4: length of the flattened output, decomposed over children -/

/-- Number of flattened leaf differences below (and including) a node. -/
def countD (c : Diff) : Nat := (getAllDiffs c).length

/-- Total flattened count over a children list. -/
def sumCountC (cs : List (String × Diff)) : Nat := (cs.map (fun e => countD e.2)).sum

@[simp] theorem sumCountC_nil : sumCountC [] = 0 := rfl

theorem sumCountC_cons (e : String × Diff) (cs : List (String × Diff)) :
    sumCountC (e :: cs) = countD e.2 + sumCountC cs := by
  unfold sumCountC
  rw [List.map_cons, List.sum_cons]

theorem sumCountC_append (a b : List (String × Diff)) :
    sumCountC (a ++ b) = sumCountC a + sumCountC b := by
  unfold sumCountC
  rw [List.map_append, List.sum_append]

theorem gadk_length_sum (cs : List (String × Diff)) :
    ∀ K : List String,
      (getAllDiffsKeys cs K).length =
        (K.map (fun k => match lookupD cs k with
                         | some c => countD c
                         | none => 0)).sum := by
  intro K
  induction K with
  | nil => rw [gadk_nil]; simp
  | cons k rest ih =>
    cases hl : lookupD cs k with
    | none =>
      rw [gadk_cons_missing cs k rest hl, List.map_cons, List.sum_cons, hl, ih]
      simp
    | some c =>
      rw [gadk_cons_found cs k rest c hl, List.map_cons, List.sum_cons, hl,
          List.length_append, ih]
      rfl

theorem keys_map_lookup_sum (cs : List (String × Diff)) (hnd : (cs.map Prod.fst).Nodup) :
    ((cs.map Prod.fst).map (fun k => match lookupD cs k with
                                     | some c => countD c
                                     | none => 0)).sum = sumCountC cs := by
  induction cs with
  | nil => simp
  | cons e rest ih =>
    obtain ⟨a, b⟩ := e
    simp only [List.map_cons, List.nodup_cons] at hnd
    rw [List.map_cons, List.map_cons, List.sum_cons]
    rw [lookupD_cons]
    rw [if_pos rfl]
    rw [sumCountC_cons]
    congr 1
    have hmapeq : (rest.map Prod.fst).map (fun k => match lookupD ((a, b) :: rest) k with
        | some c => countD c
        | none => 0) =
        (rest.map Prod.fst).map (fun k => match lookupD rest k with
        | some c => countD c
        | none => 0) := by
      refine List.map_congr_left ?_
      intro k hk
      rw [lookupD_cons]
      rw [if_neg ?_]
      intro hak
      subst hak
      exact hnd.1 hk
    rw [hmapeq]
    exact ih hnd.2

/-- For a node whose type is Equal exactly when it has no children (as
`compareObjects`/`compareArrays` construct) and whose children keys are
duplicate-free, the flattened count is the sum over the children. -/
theorem countD_node (p : String) (v1 v2 : Option Value) (cs : List (String × Diff))
    (hnd : (cs.map Prod.fst).Nodup) :
    countD (.mk p (typeOfChildren cs) v1 v2 cs) = sumCountC cs := by
  unfold countD
  rw [getAllDiffs_eq]
  rw [List.length_append]
  rw [gadk_length_sum]
  have hperm : List.Perm
      (List.insertionSort (fun a b : String => a ≤ b) (cs.map Prod.fst))
      (cs.map Prod.fst) := List.perm_insertionSort _ _
  rw [(hperm.map _).sum_eq]
  rw [keys_map_lookup_sum cs hnd]
  cases cs <;> simp [typeOfChildren]

theorem countD_leaf (p : String) (t : DiffType) (v1 v2 : Option Value)
    (ht : t ≠ .equal) : countD (.mk p t v1 v2 []) = 1 := by
  unfold countD
  rw [getAllDiffs_leaf p t v1 v2 ht]
  rfl

theorem countD_equal_leaf (p : String) (v1 v2 : Option Value) :
    countD (.mk p .equal v1 v2 []) = 0 := by
  unfold countD
  rw [getAllDiffs_equal]
  rw [show List.map Prod.fst ([] : List (String × Diff)) = [] from rfl]
  rw [show List.insertionSort (fun a b : String => a ≤ b) [] = [] from rfl]
  rw [gadk_nil]
  rfl

/-! ### C4: ignore-rule monotonicity and showAll bypass -/

theorem bool_eq_false_of_ne_true {b : Bool} (h : ¬ b = true) : b = false := by
  cases b
  · rfl
  · exact absurd rfl h

theorem compare_mono_all (cfg cfg2 : Config)
    (hmono : ∀ s, cfg.shouldIgnore s = true → cfg2.shouldIgnore s = true) : ∀ n : Nat,
    (∀ v1 v2 path, sizeOf v1 + sizeOf v2 < n →
      ((compareValues (Differ.mk cfg false) v1 v2 path).type = .equal →
        (compareValues (Differ.mk cfg2 false) v1 v2 path).type = .equal) ∧
      countD (compareValues (Differ.mk cfg2 false) v1 v2 path) ≤
        countD (compareValues (Differ.mk cfg false) v1 v2 path)) ∧
    (∀ o1 o2 path keys, sizeOf o1 + sizeOf o2 < n →
      (compareObjChildren (Differ.mk cfg false) o1 o2 path keys = [] →
        compareObjChildren (Differ.mk cfg2 false) o1 o2 path keys = []) ∧
      sumCountC (compareObjChildren (Differ.mk cfg2 false) o1 o2 path keys) ≤
        sumCountC (compareObjChildren (Differ.mk cfg false) o1 o2 path keys)) ∧
    (∀ o1 o2 path, sizeOf o1 + sizeOf o2 < n →
      ((compareObjects (Differ.mk cfg false) o1 o2 path).type = .equal →
        (compareObjects (Differ.mk cfg2 false) o1 o2 path).type = .equal) ∧
      countD (compareObjects (Differ.mk cfg2 false) o1 o2 path) ≤
        countD (compareObjects (Differ.mk cfg false) o1 o2 path)) ∧
    (∀ a1 a2 path idxs, sizeOf a1 + sizeOf a2 < n →
      (compareArrChildren (Differ.mk cfg false) a1 a2 path idxs = [] →
        compareArrChildren (Differ.mk cfg2 false) a1 a2 path idxs = []) ∧
      sumCountC (compareArrChildren (Differ.mk cfg2 false) a1 a2 path idxs) ≤
        sumCountC (compareArrChildren (Differ.mk cfg false) a1 a2 path idxs)) ∧
    (∀ a1 a2 path, sizeOf a1 + sizeOf a2 < n →
      ((compareArrays (Differ.mk cfg false) a1 a2 path).type = .equal →
        (compareArrays (Differ.mk cfg2 false) a1 a2 path).type = .equal) ∧
      countD (compareArrays (Differ.mk cfg2 false) a1 a2 path) ≤
        countD (compareArrays (Differ.mk cfg false) a1 a2 path)) := by
  intro n
  induction n using Nat.strong_induction_on with
  | _ n IH =>
    have hval : ∀ v1 v2 path, sizeOf v1 + sizeOf v2 < n →
        ((compareValues (Differ.mk cfg false) v1 v2 path).type = .equal →
          (compareValues (Differ.mk cfg2 false) v1 v2 path).type = .equal) ∧
        countD (compareValues (Differ.mk cfg2 false) v1 v2 path) ≤
          countD (compareValues (Differ.mk cfg false) v1 v2 path) := by
      intro v1 v2 path hv
      have hobjIH : ∀ o1 o2 path,
          1 + sizeOf o1 + 1 + sizeOf o2 ≤ n →
          ((compareObjects (Differ.mk cfg false) o1 o2 path).type = .equal →
            (compareObjects (Differ.mk cfg2 false) o1 o2 path).type = .equal) ∧
          countD (compareObjects (Differ.mk cfg2 false) o1 o2 path) ≤
            countD (compareObjects (Differ.mk cfg false) o1 o2 path) := by
        intro o1 o2 path hsz
        exact (IH (sizeOf o1 + sizeOf o2 + 1) (by omega)).2.2.1 o1 o2 path (by omega)
      have harrIH : ∀ a1 a2 path,
          1 + sizeOf a1 + 1 + sizeOf a2 ≤ n →
          ((compareArrays (Differ.mk cfg false) a1 a2 path).type = .equal →
            (compareArrays (Differ.mk cfg2 false) a1 a2 path).type = .equal) ∧
          countD (compareArrays (Differ.mk cfg2 false) a1 a2 path) ≤
            countD (compareArrays (Differ.mk cfg false) a1 a2 path) := by
        intro a1 a2 path hsz
        exact (IH (sizeOf a1 + sizeOf a2 + 1) (by omega)).2.2.2.2 a1 a2 path (by omega)
      cases v1 <;> cases v2 <;>
        first
        | (rw [cv_null_null, cv_null_null]
           exact ⟨fun h => h, le_refl _⟩)
        | (rw [cv_null_left (Differ.mk cfg false) _ _ (by simp),
               cv_null_left (Differ.mk cfg2 false) _ _ (by simp)]
           exact ⟨fun h => h, le_refl _⟩)
        | (rw [cv_null_right (Differ.mk cfg false) _ _ (by simp),
               cv_null_right (Differ.mk cfg2 false) _ _ (by simp)]
           exact ⟨fun h => h, le_refl _⟩)
        | (rw [cv_bool_bool, cv_bool_bool]
           exact ⟨fun h => h, le_refl _⟩)
        | (rw [cv_num_num, cv_num_num]
           exact ⟨fun h => h, le_refl _⟩)
        | (rw [cv_str_str, cv_str_str]
           exact ⟨fun h => h, le_refl _⟩)
        | (rw [cv_obj_obj, cv_obj_obj]
           rename_i o1 o2
           refine hobjIH o1 o2 path ?_
           simp at hv
           omega)
        | (rw [cv_arr_arr, cv_arr_arr]
           rename_i a1 a2
           refine harrIH a1 a2 path ?_
           simp at hv
           omega)
        | (rw [cv_mismatch (Differ.mk cfg false) _ _ path (by simp) (by simp)
                 (by simp [typeTag]),
               cv_mismatch (Differ.mk cfg2 false) _ _ path (by simp) (by simp)
                 (by simp [typeTag])]
           exact ⟨fun h => h, le_refl _⟩)
    have hobjc : ∀ o1 o2 path keys, sizeOf o1 + sizeOf o2 < n →
        (compareObjChildren (Differ.mk cfg false) o1 o2 path keys = [] →
          compareObjChildren (Differ.mk cfg2 false) o1 o2 path keys = []) ∧
        sumCountC (compareObjChildren (Differ.mk cfg2 false) o1 o2 path keys) ≤
          sumCountC (compareObjChildren (Differ.mk cfg false) o1 o2 path keys) := by
      intro o1 o2 path keys ho
      induction keys with
      | nil =>
        rw [objc_nil, objc_nil]
        exact ⟨fun _ => rfl, le_refl _⟩
      | cons key rest ihk =>
        obtain ⟨ihk1, ihk2⟩ := ihk
        by_cases hig : cfg.shouldIgnore (fieldPathFor path key) = true
        · have hig2 := hmono _ hig
          rw [objc_cons_ignored (Differ.mk cfg false) o1 o2 path key rest (by simp [hig]),
              objc_cons_ignored (Differ.mk cfg2 false) o1 o2 path key rest (by simp [hig2])]
          exact ⟨ihk1, ihk2⟩
        · have higF : cfg.shouldIgnore (fieldPathFor path key) = false :=
            bool_eq_false_of_ne_true hig
          by_cases hig2 : cfg2.shouldIgnore (fieldPathFor path key) = true
          · rw [objc_cons_ignored (Differ.mk cfg2 false) o1 o2 path key rest (by simp [hig2])]
            cases hl1 : lookupV o1 key with
            | none =>
              cases hl2 : lookupV o2 key with
              | none =>
                rw [objc_cons_missing (Differ.mk cfg false) o1 o2 path key rest
                    (by simp [higF]) hl1 hl2]
                exact ⟨ihk1, ihk2⟩
              | some v2 =>
                rw [objc_cons_added (Differ.mk cfg false) o1 o2 path key rest v2
                    (by simp [higF]) hl1 hl2]
                refine ⟨fun h => absurd h (List.cons_ne_nil _ _), ?_⟩
                rw [sumCountC_cons]
                omega
            | some v1 =>
              cases hl2 : lookupV o2 key with
              | none =>
                rw [objc_cons_removed (Differ.mk cfg false) o1 o2 path key rest v1
                    (by simp [higF]) hl1 hl2]
                refine ⟨fun h => absurd h (List.cons_ne_nil _ _), ?_⟩
                rw [sumCountC_cons]
                omega
              | some v2 =>
                rw [objc_cons_both (Differ.mk cfg false) o1 o2 path key rest v1 v2
                    (by simp [higF]) hl1 hl2]
                by_cases hcd : (compareValues (Differ.mk cfg false) v1 v2
                    (fieldPathFor path key)).type = DiffType.equal
                · rw [if_neg (fun hh => hh hcd), List.nil_append]
                  exact ⟨ihk1, ihk2⟩
                · rw [if_pos hcd, List.singleton_append]
                  refine ⟨fun h => absurd h (List.cons_ne_nil _ _), ?_⟩
                  rw [sumCountC_cons]
                  omega
          · have hig2F : cfg2.shouldIgnore (fieldPathFor path key) = false :=
              bool_eq_false_of_ne_true hig2
            cases hl1 : lookupV o1 key with
            | none =>
              cases hl2 : lookupV o2 key with
              | none =>
                rw [objc_cons_missing (Differ.mk cfg false) o1 o2 path key rest
                    (by simp [higF]) hl1 hl2,
                    objc_cons_missing (Differ.mk cfg2 false) o1 o2 path key rest
                    (by simp [hig2F]) hl1 hl2]
                exact ⟨ihk1, ihk2⟩
              | some v2 =>
                rw [objc_cons_added (Differ.mk cfg false) o1 o2 path key rest v2
                    (by simp [higF]) hl1 hl2,
                    objc_cons_added (Differ.mk cfg2 false) o1 o2 path key rest v2
                    (by simp [hig2F]) hl1 hl2]
                refine ⟨fun h => absurd h (List.cons_ne_nil _ _), ?_⟩
                rw [sumCountC_cons, sumCountC_cons]
                omega
            | some v1 =>
              cases hl2 : lookupV o2 key with
              | none =>
                rw [objc_cons_removed (Differ.mk cfg false) o1 o2 path key rest v1
                    (by simp [higF]) hl1 hl2,
                    objc_cons_removed (Differ.mk cfg2 false) o1 o2 path key rest v1
                    (by simp [hig2F]) hl1 hl2]
                refine ⟨fun h => absurd h (List.cons_ne_nil _ _), ?_⟩
                rw [sumCountC_cons, sumCountC_cons]
                omega
              | some v2 =>
                have hs1 := sizeOf_lookupV hl1
                have hs2 := sizeOf_lookupV hl2
                obtain ⟨hveq, hvle⟩ := hval v1 v2 (fieldPathFor path key) (by omega)
                rw [objc_cons_both (Differ.mk cfg false) o1 o2 path key rest v1 v2
                    (by simp [higF]) hl1 hl2,
                    objc_cons_both (Differ.mk cfg2 false) o1 o2 path key rest v1 v2
                    (by simp [hig2F]) hl1 hl2]
                by_cases hcd : (compareValues (Differ.mk cfg false) v1 v2
                    (fieldPathFor path key)).type = DiffType.equal
                · rw [if_neg (fun hh => hh hcd), if_neg (fun hh => hh (hveq hcd)),
                      List.nil_append, List.nil_append]
                  exact ⟨ihk1, ihk2⟩
                · rw [if_pos hcd, List.singleton_append]
                  by_cases hcd2 : (compareValues (Differ.mk cfg2 false) v1 v2
                      (fieldPathFor path key)).type = DiffType.equal
                  · rw [if_neg (fun hh => hh hcd2), List.nil_append]
                    refine ⟨fun h => absurd h (List.cons_ne_nil _ _), ?_⟩
                    rw [sumCountC_cons]
                    omega
                  · rw [if_pos hcd2, List.singleton_append]
                    refine ⟨fun h => absurd h (List.cons_ne_nil _ _), ?_⟩
                    rw [sumCountC_cons, sumCountC_cons]
                    simp only []
                    omega
    have hobj : ∀ o1 o2 path, sizeOf o1 + sizeOf o2 < n →
        ((compareObjects (Differ.mk cfg false) o1 o2 path).type = .equal →
          (compareObjects (Differ.mk cfg2 false) o1 o2 path).type = .equal) ∧
        countD (compareObjects (Differ.mk cfg2 false) o1 o2 path) ≤
          countD (compareObjects (Differ.mk cfg false) o1 o2 path) := by
      intro o1 o2 path ho
      obtain ⟨h1, h2⟩ := hobjc o1 o2 path (sortedKeys o1 o2) ho
      rw [compareObjects_eq, compareObjects_eq]
      constructor
      · intro h
        rw [Diff.type_mk, typeOfChildren_eq_equal_iff] at h ⊢
        exact h1 h
      · rw [countD_node _ _ _ _ (objc_keys_nodup (Differ.mk cfg2 false) o1 o2 path),
            countD_node _ _ _ _ (objc_keys_nodup (Differ.mk cfg false) o1 o2 path)]
        exact h2
    have harrc : ∀ a1 a2 path idxs, sizeOf a1 + sizeOf a2 < n →
        (compareArrChildren (Differ.mk cfg false) a1 a2 path idxs = [] →
          compareArrChildren (Differ.mk cfg2 false) a1 a2 path idxs = []) ∧
        sumCountC (compareArrChildren (Differ.mk cfg2 false) a1 a2 path idxs) ≤
          sumCountC (compareArrChildren (Differ.mk cfg false) a1 a2 path idxs) := by
      intro a1 a2 path idxs ha
      induction idxs with
      | nil =>
        rw [arrc_nil, arrc_nil]
        exact ⟨fun _ => rfl, le_refl _⟩
      | cons i rest ihk =>
        obtain ⟨ihk1, ihk2⟩ := ihk
        cases hl1 : a1[i]? with
        | none =>
          cases hl2 : a2[i]? with
          | none =>
            rw [arrc_cons_missing (Differ.mk cfg false) a1 a2 path i rest hl1 hl2,
                arrc_cons_missing (Differ.mk cfg2 false) a1 a2 path i rest hl1 hl2]
            exact ⟨ihk1, ihk2⟩
          | some v2 =>
            rw [arrc_cons_added (Differ.mk cfg false) a1 a2 path i rest v2 hl1 hl2,
                arrc_cons_added (Differ.mk cfg2 false) a1 a2 path i rest v2 hl1 hl2]
            refine ⟨fun h => absurd h (List.cons_ne_nil _ _), ?_⟩
            rw [sumCountC_cons, sumCountC_cons]
            omega
        | some v1 =>
          cases hl2 : a2[i]? with
          | none =>
            rw [arrc_cons_removed (Differ.mk cfg false) a1 a2 path i rest v1 hl1 hl2,
                arrc_cons_removed (Differ.mk cfg2 false) a1 a2 path i rest v1 hl1 hl2]
            refine ⟨fun h => absurd h (List.cons_ne_nil _ _), ?_⟩
            rw [sumCountC_cons, sumCountC_cons]
            omega
          | some v2 =>
            have hs1 := sizeOf_getElemV hl1
            have hs2 := sizeOf_getElemV hl2
            obtain ⟨hveq, hvle⟩ := hval v1 v2 (path ++ "[" ++ Nat.repr i ++ "]") (by omega)
            rw [arrc_cons_both (Differ.mk cfg false) a1 a2 path i rest v1 v2 hl1 hl2,
                arrc_cons_both (Differ.mk cfg2 false) a1 a2 path i rest v1 v2 hl1 hl2]
            by_cases hcd : (compareValues (Differ.mk cfg false) v1 v2
                (path ++ "[" ++ Nat.repr i ++ "]")).type = DiffType.equal
            · rw [if_neg (fun hh => hh hcd), if_neg (fun hh => hh (hveq hcd)),
                  List.nil_append, List.nil_append]
              exact ⟨ihk1, ihk2⟩
            · rw [if_pos hcd, List.singleton_append]
              by_cases hcd2 : (compareValues (Differ.mk cfg2 false) v1 v2
                  (path ++ "[" ++ Nat.repr i ++ "]")).type = DiffType.equal
              · rw [if_neg (fun hh => hh hcd2), List.nil_append]
                refine ⟨fun h => absurd h (List.cons_ne_nil _ _), ?_⟩
                rw [sumCountC_cons]
                omega
              · rw [if_pos hcd2, List.singleton_append]
                refine ⟨fun h => absurd h (List.cons_ne_nil _ _), ?_⟩
                rw [sumCountC_cons, sumCountC_cons]
                simp only []
                omega
    have harr : ∀ a1 a2 path, sizeOf a1 + sizeOf a2 < n →
        ((compareArrays (Differ.mk cfg false) a1 a2 path).type = .equal →
          (compareArrays (Differ.mk cfg2 false) a1 a2 path).type = .equal) ∧
        countD (compareArrays (Differ.mk cfg2 false) a1 a2 path) ≤
          countD (compareArrays (Differ.mk cfg false) a1 a2 path) := by
      intro a1 a2 path ha
      obtain ⟨h1, h2⟩ := harrc a1 a2 path (List.range (max a1.length a2.length)) ha
      rw [compareArrays_eq, compareArrays_eq]
      constructor
      · intro h
        rw [Diff.type_mk, typeOfChildren_eq_equal_iff] at h ⊢
        exact h1 h
      · rw [countD_node _ _ _ _ (arrc_keys_nodup (Differ.mk cfg2 false) a1 a2 path _),
            countD_node _ _ _ _ (arrc_keys_nodup (Differ.mk cfg false) a1 a2 path _)]
        exact h2
    exact ⟨hval, hobjc, hobj, harrc, harr⟩

theorem compare_showAll_all (cfg cfg2 : Config) : ∀ n : Nat,
    (∀ v1 v2 path, sizeOf v1 + sizeOf v2 < n →
      compareValues (Differ.mk cfg true) v1 v2 path =
        compareValues (Differ.mk cfg2 true) v1 v2 path) ∧
    (∀ o1 o2 path keys, sizeOf o1 + sizeOf o2 < n →
      compareObjChildren (Differ.mk cfg true) o1 o2 path keys =
        compareObjChildren (Differ.mk cfg2 true) o1 o2 path keys) ∧
    (∀ o1 o2 path, sizeOf o1 + sizeOf o2 < n →
      compareObjects (Differ.mk cfg true) o1 o2 path =
        compareObjects (Differ.mk cfg2 true) o1 o2 path) ∧
    (∀ a1 a2 path idxs, sizeOf a1 + sizeOf a2 < n →
      compareArrChildren (Differ.mk cfg true) a1 a2 path idxs =
        compareArrChildren (Differ.mk cfg2 true) a1 a2 path idxs) ∧
    (∀ a1 a2 path, sizeOf a1 + sizeOf a2 < n →
      compareArrays (Differ.mk cfg true) a1 a2 path =
        compareArrays (Differ.mk cfg2 true) a1 a2 path) := by
  intro n
  induction n using Nat.strong_induction_on with
  | _ n IH =>
    have hval : ∀ v1 v2 path, sizeOf v1 + sizeOf v2 < n →
        compareValues (Differ.mk cfg true) v1 v2 path =
          compareValues (Differ.mk cfg2 true) v1 v2 path := by
      intro v1 v2 path hv
      cases v1 <;> cases v2 <;>
        first
        | (rw [cv_null_null, cv_null_null])
        | (rw [cv_null_left (Differ.mk cfg true) _ _ (by simp),
               cv_null_left (Differ.mk cfg2 true) _ _ (by simp)])
        | (rw [cv_null_right (Differ.mk cfg true) _ _ (by simp),
               cv_null_right (Differ.mk cfg2 true) _ _ (by simp)])
        | (rw [cv_bool_bool, cv_bool_bool])
        | (rw [cv_num_num, cv_num_num])
        | (rw [cv_str_str, cv_str_str])
        | (rw [cv_obj_obj, cv_obj_obj]
           rename_i o1 o2
           refine (IH (sizeOf o1 + sizeOf o2 + 1) ?_).2.2.1 o1 o2 path ?_ <;>
             (simp at hv; omega))
        | (rw [cv_arr_arr, cv_arr_arr]
           rename_i a1 a2
           refine (IH (sizeOf a1 + sizeOf a2 + 1) ?_).2.2.2.2 a1 a2 path ?_ <;>
             (simp at hv; omega))
        | (rw [cv_mismatch (Differ.mk cfg true) _ _ path (by simp) (by simp)
                 (by simp [typeTag]),
               cv_mismatch (Differ.mk cfg2 true) _ _ path (by simp) (by simp)
                 (by simp [typeTag])])
    have hobjc : ∀ o1 o2 path keys, sizeOf o1 + sizeOf o2 < n →
        compareObjChildren (Differ.mk cfg true) o1 o2 path keys =
          compareObjChildren (Differ.mk cfg2 true) o1 o2 path keys := by
      intro o1 o2 path keys ho
      induction keys with
      | nil => rw [objc_nil, objc_nil]
      | cons key rest ihk =>
        cases hl1 : lookupV o1 key with
        | none =>
          cases hl2 : lookupV o2 key with
          | none =>
            rw [objc_cons_missing (Differ.mk cfg true) o1 o2 path key rest rfl hl1 hl2,
                objc_cons_missing (Differ.mk cfg2 true) o1 o2 path key rest rfl hl1 hl2, ihk]
          | some v2 =>
            rw [objc_cons_added (Differ.mk cfg true) o1 o2 path key rest v2 rfl hl1 hl2,
                objc_cons_added (Differ.mk cfg2 true) o1 o2 path key rest v2 rfl hl1 hl2, ihk]
        | some v1 =>
          cases hl2 : lookupV o2 key with
          | none =>
            rw [objc_cons_removed (Differ.mk cfg true) o1 o2 path key rest v1 rfl hl1 hl2,
                objc_cons_removed (Differ.mk cfg2 true) o1 o2 path key rest v1 rfl hl1 hl2,
                ihk]
          | some v2 =>
            have hs1 := sizeOf_lookupV hl1
            have hs2 := sizeOf_lookupV hl2
            rw [objc_cons_both (Differ.mk cfg true) o1 o2 path key rest v1 v2 rfl hl1 hl2,
                objc_cons_both (Differ.mk cfg2 true) o1 o2 path key rest v1 v2 rfl hl1 hl2,
                ihk, hval v1 v2 (fieldPathFor path key) (by omega)]
    have hobj : ∀ o1 o2 path, sizeOf o1 + sizeOf o2 < n →
        compareObjects (Differ.mk cfg true) o1 o2 path =
          compareObjects (Differ.mk cfg2 true) o1 o2 path := by
      intro o1 o2 path ho
      rw [compareObjects_eq, compareObjects_eq, hobjc o1 o2 path _ ho]
    have harrc : ∀ a1 a2 path idxs, sizeOf a1 + sizeOf a2 < n →
        compareArrChildren (Differ.mk cfg true) a1 a2 path idxs =
          compareArrChildren (Differ.mk cfg2 true) a1 a2 path idxs := by
      intro a1 a2 path idxs ha
      induction idxs with
      | nil => rw [arrc_nil, arrc_nil]
      | cons i rest ihk =>
        cases hl1 : a1[i]? with
        | none =>
          cases hl2 : a2[i]? with
          | none =>
            rw [arrc_cons_missing (Differ.mk cfg true) a1 a2 path i rest hl1 hl2,
                arrc_cons_missing (Differ.mk cfg2 true) a1 a2 path i rest hl1 hl2, ihk]
          | some v2 =>
            rw [arrc_cons_added (Differ.mk cfg true) a1 a2 path i rest v2 hl1 hl2,
                arrc_cons_added (Differ.mk cfg2 true) a1 a2 path i rest v2 hl1 hl2, ihk]
        | some v1 =>
          cases hl2 : a2[i]? with
          | none =>
            rw [arrc_cons_removed (Differ.mk cfg true) a1 a2 path i rest v1 hl1 hl2,
                arrc_cons_removed (Differ.mk cfg2 true) a1 a2 path i rest v1 hl1 hl2, ihk]
          | some v2 =>
            have hs1 := sizeOf_getElemV hl1
            have hs2 := sizeOf_getElemV hl2
            rw [arrc_cons_both (Differ.mk cfg true) a1 a2 path i rest v1 v2 hl1 hl2,
                arrc_cons_both (Differ.mk cfg2 true) a1 a2 path i rest v1 v2 hl1 hl2,
                ihk, hval v1 v2 (path ++ "[" ++ Nat.repr i ++ "]") (by omega)]
    have harr : ∀ a1 a2 path, sizeOf a1 + sizeOf a2 < n →
        compareArrays (Differ.mk cfg true) a1 a2 path =
          compareArrays (Differ.mk cfg2 true) a1 a2 path := by
      intro a1 a2 path ha
      rw [compareArrays_eq, compareArrays_eq, harrc a1 a2 path _ ha]
    exact ⟨hval, hobjc, hobj, harrc, harr⟩

/-- C4: ignoring monotonicity and the showAll bypass.  (1) For fixed
inputs, adding one more path to the ignore rule set (with
`showAll = false`) never increases the number of leaf differences in the
flattened Compare result.  (2) With `showAll = true` the produced diff
tree is the same whatever the rule set: no path is ever ignored, so the
full diff (the one obtained under the empty rule set) is recovered. -/
theorem claim_C4 :
    (∀ (cfg : Config) (p : String) (a b : List (String × Value)),
      (getAllDiffs ((Differ.mk ⟨p :: cfg.ignoreFields, cfg.ignorePatterns⟩ false).compare
          a b)).length ≤
        (getAllDiffs ((Differ.mk cfg false).compare a b)).length) ∧
    (∀ (cfg cfg2 : Config) (a b : List (String × Value)),
      (Differ.mk cfg true).compare a b = (Differ.mk cfg2 true).compare a b) := by
  constructor
  · intro cfg p a b
    have hmono : ∀ s, cfg.shouldIgnore s = true →
        Config.shouldIgnore ⟨p :: cfg.ignoreFields, cfg.ignorePatterns⟩ s = true := by
      intro s hs
      unfold Config.shouldIgnore at hs ⊢
      rw [List.any_cons]
      rw [hs]
      simp
    exact (compare_mono_all cfg ⟨p :: cfg.ignoreFields, cfg.ignorePatterns⟩ hmono
      (sizeOf a + sizeOf b + 1)).2.2.1 a b "" (Nat.lt_succ_self _) |>.2
  · intro cfg cfg2 a b
    exact (compare_showAll_all cfg cfg2 (sizeOf a + sizeOf b + 1)).2.2.1 a b ""
      (Nat.lt_succ_self _)

/-! ### C9: the renderers -/

/-- Stateless formatting strategy: stands for the process-wide
`fatih/color` SprintFunc singletons (`green`, `red`, `yellow`, `cyan`,
`bold`, `gray`), which are constant for the duration of a run. -/
structure Fmt where
  green : String → String
  red : String → String
  yellow : String → String
  cyan : String → String
  bold : String → String
  gray : String → String

/-- `strings.Repeat`. -/
def repeatStr (s : String) : Nat → String
  | 0 => ""
  | n + 1 => s ++ repeatStr s n

/-- Go `%q`-style quoting (escaping backslashes and double quotes). -/
def escChar (c : Char) : List Char :=
  if c = '\\' then ['\\', '\\']
  else if c = '\"' then ['\\', '\"']
  else [c]

def quoteStr (s : String) : String :=
  String.mk ('\"' :: (s.data.flatMap escChar ++ ['\"']))

def joinComma : List String → String
  | [] => ""
  | [x] => x
  | x :: xs => x ++ "," ++ joinComma xs

/-- Keys-sorted object entries: `encoding/json` marshals map keys in
sorted order. -/
def sortPairsV (o : List (String × Value)) : List (String × Value) :=
  List.insertionSort (fun a b => a.1 ≤ b.1) o

theorem sizeOf_insertionSort_pairsV (r : String × Value → String × Value → Prop)
    [DecidableRel r] (o : List (String × Value)) :
    sizeOf (List.insertionSort r o) = sizeOf o :=
  (List.perm_insertionSort r o).sizeOf_eq_sizeOf

theorem sizeOf_sortPairsV (o : List (String × Value)) :
    sizeOf (sortPairsV o) = sizeOf o :=
  (List.perm_insertionSort _ o).sizeOf_eq_sizeOf

def joinCommaNl : List String → String
  | [] => ""
  | [x] => x
  | x :: xs => x ++ ",\n" ++ joinCommaNl xs

mutual

/-- `json.Marshal` on a Value (compact form). -/
def jsonCompact : Value → String
  | .null => "null"
  | .bool b => if b then "true" else "false"
  | .num n => toString n
  | .str s => quoteStr s
  | .arr l => "[" ++ joinComma (jsonCompactList l) ++ "]"
  | .obj o => "\x7b" ++ joinComma (jsonCompactObj (sortPairsV o)) ++ "\x7d"
termination_by v => (sizeOf v, 0)
decreasing_by
  all_goals
    first
    | decreasing_tactic
    | (simp only [sizeOf_sortPairsV]
       decreasing_tactic)

def jsonCompactList : List Value → List String
  | [] => []
  | v :: vs => jsonCompact v :: jsonCompactList vs
termination_by l => (sizeOf l, 1)

def jsonCompactObj : List (String × Value) → List String
  | [] => []
  | (k, v) :: rest => (quoteStr k ++ ":" ++ jsonCompact v) :: jsonCompactObj rest
termination_by o => (sizeOf o, 1)

end

mutual

/-- `json.MarshalIndent(v, pfx, ind)` at nesting depth `depth`: nested
lines are prefixed with `pfx` plus one `ind` per level. -/
def jsonInd (pfx ind : String) (depth : Nat) : Value → String
  | .null => "null"
  | .bool b => if b then "true" else "false"
  | .num n => toString n
  | .str s => quoteStr s
  | .arr l =>
    if l.isEmpty then "[]"
    else
      "[\n" ++ joinCommaNl (jsonIndList pfx ind (depth + 1) l) ++
        "\n" ++ pfx ++ repeatStr ind depth ++ "]"
  | .obj o =>
    if (sortPairsV o).isEmpty then "\x7b\x7d"
    else
      "\x7b\n" ++ joinCommaNl (jsonIndObj pfx ind (depth + 1) (sortPairsV o)) ++
        "\n" ++ pfx ++ repeatStr ind depth ++ "\x7d"
termination_by v => (sizeOf v, 0)
decreasing_by
  all_goals
    first
    | decreasing_tactic
    | (simp only [sizeOf_sortPairsV]
       decreasing_tactic)

def jsonIndList (pfx ind : String) (depth : Nat) : List Value → List String
  | [] => []
  | v :: vs =>
    (pfx ++ repeatStr ind depth ++ jsonInd pfx ind depth v) :: jsonIndList pfx ind depth vs
termination_by l => (sizeOf l, 1)

def jsonIndObj (pfx ind : String) (depth : Nat) : List (String × Value) → List String
  | [] => []
  | (k, v) :: rest =>
    (pfx ++ repeatStr ind depth ++ quoteStr k ++ ": " ++ jsonInd pfx ind depth v) ::
      jsonIndObj pfx ind depth rest
termination_by o => (sizeOf o, 1)

end

/-- `printValue` from output.go: `<nil>` for absent/nil payloads, indented
JSON for compound values (first line unprefixed, later lines prefixed with
`indent`), quoted strings, plain rendering for other scalars; each line is
passed through the colorizer and ends with a newline. -/
def printValue (fm : Fmt) (indent : String) (ov : Option Value)
    (colorFn : String → String) : String :=
  match ov with
  | none => colorFn "<nil>" ++ "\n"
  | some .null => colorFn "<nil>" ++ "\n"
  | some (.obj o) =>
    match (jsonInd indent "  " 0 (.obj o)).splitOn "\n" with
    | [] => ""
    | l0 :: rest =>
      colorFn l0 ++ "\n" ++ String.join (rest.map (fun l => indent ++ colorFn l ++ "\n"))
  | some (.arr l) =>
    match (jsonInd indent "  " 0 (.arr l)).splitOn "\n" with
    | [] => ""
    | l0 :: rest =>
      colorFn l0 ++ "\n" ++ String.join (rest.map (fun ln => indent ++ colorFn ln ++ "\n"))
  | some (.str s) => colorFn (quoteStr s) ++ "\n"
  | some (.bool b) => colorFn (if b then "true" else "false") ++ "\n"
  | some (.num n) => colorFn (toString n) ++ "\n"

/-- `printDiffSection` from output.go: sort the bucket by path, print the
bold title, then each entry with its marker, cyan path and payload(s). -/
def printDiffSection (fm : Fmt) (title : String) (diffs : List Diff)
    (diffType : DiffType) : String :=
  if diffs.isEmpty then ""
  else
    let sorted := List.insertionSort (fun a b : Diff => a.path ≤ b.path) diffs
    fm.bold (title ++ ":") ++ "\n" ++ "\n" ++
      String.join (sorted.map (fun dd =>
        (match diffType with
         | DiffType.added =>
           "  " ++ fm.green "+" ++ " " ++ fm.cyan dd.path ++ "\n" ++
             printValue fm "      " dd.value2 fm.green
         | DiffType.removed =>
           "  " ++ fm.red "-" ++ " " ++ fm.cyan dd.path ++ "\n" ++
             printValue fm "      " dd.value1 fm.red
         | DiffType.modified =>
           "  " ++ fm.yellow "~" ++ " " ++ fm.cyan dd.path ++ "\n" ++
             "      " ++ fm.red "-" ++ " " ++ printValue fm "        " dd.value1 fm.red ++
             "      " ++ fm.green "+" ++ " " ++ printValue fm "        " dd.value2 fm.green
         | DiffType.equal => "") ++ "\n"))

/-- `PrintGitStyleDiff` from output.go (the grouped renderer), as a pure
function of the formatting strategy, the tree and the two names: the Go
code only reads the tree (`GetAllDiffs` builds fresh slices; the sorts
reorder those slices, never the tree). -/
def printGitStyleDiff (fm : Fmt) (diff : Diff) (name1 name2 : String) : String :=
  let header := fm.bold ("Comparing: " ++ name1 ++ " <-> " ++ name2) ++ "\n" ++
    repeatStr "-" 80 ++ "\n"
  if diff.type = DiffType.equal then
    header ++ fm.green "✓ No differences found" ++ "\n"
  else
    let diffs := getAllDiffs diff
    if diffs.isEmpty then
      header ++ fm.green "✓ No differences found" ++ "\n"
    else
      let added := diffs.filter (fun dd => dd.type == DiffType.added)
      let removed := diffs.filter (fun dd => dd.type == DiffType.removed)
      let modified := diffs.filter (fun dd => dd.type == DiffType.modified)
      let total := added.length + removed.length + modified.length
      header ++ "\n" ++
        fm.bold ("Summary: " ++ Nat.repr total ++ " difference(s) found") ++ "\n" ++
        (if added.length > 0 then
          "  " ++ fm.green "+" ++ " " ++ Nat.repr added.length ++ " field(s)\n" else "") ++
        (if removed.length > 0 then
          "  " ++ fm.red "-" ++ " " ++ Nat.repr removed.length ++ " field(s)\n" else "") ++
        (if modified.length > 0 then
          "  " ++ fm.yellow "~" ++ " " ++ Nat.repr modified.length ++ " field(s)\n" else "") ++
        "\n" ++
        printDiffSection fm "Added Fields" added DiffType.added ++
        printDiffSection fm "Removed Fields" removed DiffType.removed ++
        printDiffSection fm "Modified Fields" modified DiffType.modified

/-- `extractTopLevelField` from output_v2.go: the part of the key before
the first `.` or `[`. -/
def extractTopLevelField (path : String) : String :=
  String.mk (path.data.takeWhile (fun c => !(c = '.' || c = '[')))

/-- Go map assignment `m[k] = c`: replace the binding if the key is
present, otherwise add it. -/
def assocSet (cs : List (String × Diff)) (k : String) (c : Diff) : List (String × Diff) :=
  match cs with
  | [] => [(k, c)]
  | (a, b) :: rest => if a = k then (k, c) :: rest else (a, b) :: assocSet rest k c

/-- The merge step of `getTopLevelDiffs`:
`existing.Children[key] = child; if child.Type != Equal { existing.Type = Modified }`. -/
def mergeOne (ex : Diff) (k : String) (c : Diff) : Diff :=
  .mk ex.path (if c.type ≠ DiffType.equal then .modified else ex.type)
    ex.value1 ex.value2 (assocSet ex.children k c)

/-- The accumulator of `getTopLevelDiffs`: entries
`(topField, baseKey, node)`, where `node` is the (mutated) tree node that
`result[topField]` points at and `baseKey` is the root-children key it
came from. -/
def lookup3 (acc : List (String × String × Diff)) (tf : String) : Option (String × Diff) :=
  (acc.find? (fun e => e.1 == tf)).map (fun e => e.2)

def mergeAt (acc : List (String × String × Diff)) (tf k : String) (c : Diff) :
    List (String × String × Diff) :=
  match acc with
  | [] => []
  | (t, bk, ex) :: rest =>
    if t = tf then (t, bk, mergeOne ex k c) :: rest else (t, bk, ex) :: mergeAt rest tf k c

def gtldStep (acc : List (String × String × Diff)) (kc : String × Diff) :
    List (String × String × Diff) :=
  let tf := extractTopLevelField kc.1
  match lookup3 acc tf with
  | some _ => mergeAt acc tf kc.1 kc.2
  | none => acc ++ [(tf, kc.1, kc.2)]

def gtldAcc (cs : List (String × Diff)) : List (String × String × Diff) :=
  cs.foldl gtldStep []

def lookupBase (acc : List (String × String × Diff)) (k : String) : Option Diff :=
  (acc.find? (fun e => e.2.1 == k)).map (fun e => e.2.2)

/-- `getTopLevelDiffs` from output_v2.go, with the pointer mutation made
explicit: returns both the `result` map (as an association list in
first-appearance order of the top-level fields) and the root children
after the in-place merges (each base entry replaced by its merged node). -/
def getTopLevelDiffs (cs : List (String × Diff)) :
    List (String × Diff) × List (String × Diff) :=
  let acc := gtldAcc cs
  (acc.map (fun e => (e.1, e.2.2)),
   cs.map (fun kc =>
     match lookupBase acc kc.1 with
     | some nd => (kc.1, nd)
     | none => kc))

/-- `getSortedKeys` from output_v2.go. -/
def getSortedKeysD (m : List (String × Diff)) : List String :=
  List.insertionSort (fun a b => a ≤ b) (m.map Prod.fst)

/-- `isArrayDiff` from output_v2.go: nonempty children, all keys starting
with `[`. -/
def isArrayDiff (d : Diff) : Bool :=
  !d.children.isEmpty && d.children.all (fun e => e.1.startsWith "[")

/-- `fmt.Sscanf(key, "[%d]", &idx)`: parse the digits after a leading
`[`; on a parse failure `idx` keeps its zero value. -/
def parseIdx (key : String) : Nat :=
  if key.startsWith "[" then
    match ((key.drop 1).takeWhile Char.isDigit).toNat? with
    | some n => n
    | none => 0
  else 0

/-- `childMap[idx]` after the collection loop of `printArrayDiff`: the
last children entry whose key parses to `idx` (later map assignments
overwrite earlier ones). -/
def childFor (cs : List (String × Diff)) (idx : Nat) : Option Diff :=
  (cs.reverse.find? (fun e => parseIdx e.1 == idx)).map (fun e => e.2)

theorem sizeOf_childFor {cs : List (String × Diff)} {idx : Nat} {c : Diff}
    (h : childFor cs idx = some c) : sizeOf c < sizeOf cs := by
  unfold childFor at h
  cases hf : List.find? (fun e => parseIdx e.1 == idx) cs.reverse with
  | none => rw [hf] at h; simp at h
  | some p =>
    rw [hf] at h
    simp only [Option.map_some'] at h
    have hm := (List.mem_reverse).mp (List.mem_of_find?_eq_some hf)
    have hs := List.sizeOf_lt_of_mem hm
    cases p with
    | mk a b =>
      injection h with h
      subst h
      simp only [Prod.mk.sizeOf_spec] at hs
      show sizeOf b < _
      omega

/-- `printInlineValue` from output_v2.go. -/
def printInlineValue (fm : Fmt) (ov : Option Value) (colorFn : String → String) : String :=
  match ov with
  | none => colorFn "<nil>" ++ "\n"
  | some .null => colorFn "<nil>" ++ "\n"
  | some (.obj o) => colorFn (jsonCompact (.obj o)) ++ "\n"
  | some (.arr l) => colorFn (jsonCompact (.arr l)) ++ "\n"
  | some (.str s) => colorFn (quoteStr s) ++ "\n"
  | some (.bool b) => colorFn (if b then "true" else "false") ++ "\n"
  | some (.num n) => colorFn (toString n) ++ "\n"

theorem sizeOf_diff_children (d : Diff) : sizeOf d.children < sizeOf d := by
  cases d with
  | mk p t v1 v2 cs =>
    simp only [Diff.children_mk, Diff.mk.sizeOf_spec]
    omega

mutual

/-- `printFieldDiff` from output_v2.go. -/
def printFieldDiff (fm : Fmt) (fieldName : String) (fieldDiff : Diff) (indent : Nat) :
    String :=
  let indentStr := repeatStr "  " indent
  if isArrayDiff fieldDiff then printArrayDiff fm fieldName fieldDiff indent
  else if fieldDiff.children.length > 0 ∧ fieldDiff.type = DiffType.modified then
    indentStr ++ fm.yellow "~" ++ " " ++ fm.cyan fieldName ++ "\n" ++
      printFieldKeys fm fieldDiff.children (getSortedKeysD fieldDiff.children) (indent + 1)
  else
    match fieldDiff.type with
    | DiffType.added =>
      indentStr ++ fm.green "+" ++ " " ++ fm.cyan fieldName ++ "\n" ++
        printValue fm (indentStr ++ "    ") fieldDiff.value2 fm.green
    | DiffType.removed =>
      indentStr ++ fm.red "-" ++ " " ++ fm.cyan fieldName ++ "\n" ++
        printValue fm (indentStr ++ "    ") fieldDiff.value1 fm.red
    | DiffType.modified =>
      indentStr ++ fm.yellow "~" ++ " " ++ fm.cyan fieldName ++ "\n" ++
        indentStr ++ "    " ++ fm.red "-" ++ " " ++
        printValue fm (indentStr ++ "      ") fieldDiff.value1 fm.red ++
        indentStr ++ "    " ++ fm.green "+" ++ " " ++
        printValue fm (indentStr ++ "      ") fieldDiff.value2 fm.green
    | DiffType.equal => ""
termination_by (sizeOf fieldDiff, 1)
decreasing_by
  all_goals
    first
    | decreasing_tactic
    | (have hs := sizeOf_diff_children fieldDiff
       decreasing_tactic)

def printFieldKeys (fm : Fmt) (cs : List (String × Diff)) (keys : List String)
    (indent : Nat) : String :=
  match keys with
  | [] => ""
  | k :: rest =>
    (match h : lookupD cs k with
     | some c => printFieldDiff fm k c indent
     | none => "") ++ printFieldKeys fm cs rest indent
termination_by (sizeOf cs, keys.length + 2)
decreasing_by
  all_goals
    first
    | decreasing_tactic
    | (have hs := sizeOf_lookupD h
       decreasing_tactic)

def printArrayDiff (fm : Fmt) (fieldName : String) (arrayDiff : Diff) (indent : Nat) :
    String :=
  let indentStr := repeatStr "  " indent
  indentStr ++ fm.yellow "~" ++ " " ++ fm.cyan fieldName ++ " (array with changes)\n" ++
    printArrayElems fm arrayDiff.children
      (List.insertionSort (fun a b : Nat => a ≤ b)
        (arrayDiff.children.map (fun e => parseIdx e.1)))
      (indentStr ++ "    ")
termination_by (sizeOf arrayDiff, 0)
decreasing_by
  all_goals
    (have hs := sizeOf_diff_children arrayDiff
     decreasing_tactic)

def printArrayElems (fm : Fmt) (cs : List (String × Diff)) (idxs : List Nat)
    (elementIndent : String) : String :=
  match idxs with
  | [] => ""
  | idx :: rest =>
    (match h : childFor cs idx with
     | none => ""
     | some child =>
       match child.type with
       | DiffType.added =>
         elementIndent ++ fm.green "+" ++ " [" ++ Nat.repr idx ++ "] " ++
           printInlineValue fm child.value2 fm.green
       | DiffType.removed =>
         elementIndent ++ fm.red "-" ++ " [" ++ Nat.repr idx ++ "] " ++
           printInlineValue fm child.value1 fm.red
       | DiffType.modified =>
         if child.children.length > 0 then
           elementIndent ++ fm.yellow "~" ++ " [" ++ Nat.repr idx ++ "] (modified)\n" ++
             printNestedKeys fm child.children (getSortedKeysD child.children)
               (elementIndent ++ "  ")
         else
           elementIndent ++ fm.yellow "~" ++ " [" ++ Nat.repr idx ++ "]\n" ++
             elementIndent ++ "    " ++ fm.red "-" ++ " " ++
             printInlineValue fm child.value1 fm.red ++
             elementIndent ++ "    " ++ fm.green "+" ++ " " ++
             printInlineValue fm child.value2 fm.green
       | DiffType.equal => "") ++
      printArrayElems fm cs rest elementIndent
termination_by (sizeOf cs, idxs.length + 2)
decreasing_by
  all_goals
    first
    | decreasing_tactic
    | (have hs := sizeOf_childFor h
       have hs2 := sizeOf_diff_children child
       decreasing_tactic)

def printNestedChange (fm : Fmt) (indent : String) (key : String) (diff : Diff) : String :=
  match diff.type with
  | DiffType.added =>
    indent ++ "  " ++ fm.green "+" ++ " " ++ key ++ ": " ++
      printInlineValue fm diff.value2 fm.green
  | DiffType.removed =>
    indent ++ "  " ++ fm.red "-" ++ " " ++ key ++ ": " ++
      printInlineValue fm diff.value1 fm.red
  | DiffType.modified =>
    indent ++ "  " ++ fm.yellow "~" ++ " " ++ key ++ "\n" ++
      (if diff.children.length > 0 then
        printNestedKeys fm diff.children (getSortedKeysD diff.children) (indent ++ "  ")
      else
        indent ++ "      " ++ fm.red "-" ++ " " ++
          printInlineValue fm diff.value1 fm.red ++
          indent ++ "      " ++ fm.green "+" ++ " " ++
          printInlineValue fm diff.value2 fm.green)
  | DiffType.equal => ""
termination_by (sizeOf diff, 1)
decreasing_by
  all_goals
    (have hs := sizeOf_diff_children diff
     decreasing_tactic)

def printNestedKeys (fm : Fmt) (cs : List (String × Diff)) (keys : List String)
    (indent : String) : String :=
  match keys with
  | [] => ""
  | k :: rest =>
    (match h : lookupD cs k with
     | some c => printNestedChange fm indent k c
     | none => "") ++ printNestedKeys fm cs rest indent
termination_by (sizeOf cs, keys.length + 2)
decreasing_by
  all_goals
    first
    | decreasing_tactic
    | (have hs := sizeOf_lookupD h
       decreasing_tactic)

end

/-- `PrintGitStyleDiffV2` from output_v2.go, with the `getTopLevelDiffs`
tree mutation made explicit: returns the rendered text together with the
tree as it stands after the call (the root children after the merges). -/
def printGitStyleDiffV2 (fm : Fmt) (diff : Diff) (name1 name2 : String) : String × Diff :=
  let header := fm.bold ("Comparing: " ++ name1 ++ " <-> " ++ name2) ++ "\n" ++
    repeatStr "-" 80 ++ "\n"
  if diff.type = DiffType.equal then
    (header ++ fm.green "✓ No differences found" ++ "\n", diff)
  else
    let tl := getTopLevelDiffs diff.children
    let diffAfter := Diff.mk diff.path diff.type diff.value1 diff.value2 tl.2
    if tl.1.isEmpty then
      (header ++ fm.green "✓ No differences found" ++ "\n", diffAfter)
    else
      (header ++ "\n" ++
        String.join ((getSortedKeysD tl.1).map (fun fieldName =>
          match lookupD tl.1 fieldName with
          | some fieldDiff => printFieldDiff fm fieldName fieldDiff 0 ++ "\n"
          | none => "")),
       diffAfter)

/-! ### C9: the getTopLevelDiffs merge, characterized -/

/-- Fold of the per-entry merge over a list of children entries. -/
def mergeList (b : Diff) (l : List (String × Diff)) : Diff :=
  l.foldl (fun ex kc => mergeOne ex kc.1 kc.2) b

@[simp] theorem mergeList_nil (b : Diff) : mergeList b [] = b := rfl

theorem mergeList_cons (b : Diff) (kc : String × Diff) (l : List (String × Diff)) :
    mergeList b (kc :: l) = mergeList (mergeOne b kc.1 kc.2) l := rfl

@[simp] theorem mergeOne_path (ex : Diff) (k : String) (c : Diff) :
    (mergeOne ex k c).path = ex.path := rfl

@[simp] theorem mergeOne_value1 (ex : Diff) (k : String) (c : Diff) :
    (mergeOne ex k c).value1 = ex.value1 := rfl

@[simp] theorem mergeOne_value2 (ex : Diff) (k : String) (c : Diff) :
    (mergeOne ex k c).value2 = ex.value2 := rfl

@[simp] theorem mergeOne_children (ex : Diff) (k : String) (c : Diff) :
    (mergeOne ex k c).children = assocSet ex.children k c := rfl

theorem mergeOne_type (ex : Diff) (k : String) (c : Diff) :
    (mergeOne ex k c).type =
      (if c.type ≠ DiffType.equal then DiffType.modified else ex.type) := rfl

theorem assocSet_lookup_self (cs : List (String × Diff)) (k : String) (c : Diff) :
    lookupD (assocSet cs k c) k = some c := by
  induction cs with
  | nil => simp [assocSet, lookupD_cons]
  | cons e rest ih =>
    obtain ⟨a, b⟩ := e
    unfold assocSet
    by_cases hak : a = k
    · rw [if_pos hak, lookupD_cons, if_pos rfl]
    · rw [if_neg hak, lookupD_cons, if_neg hak]
      exact ih

theorem assocSet_lookup_other (cs : List (String × Diff)) (k : String) (c : Diff)
    (a : String) (hak : a ≠ k) : lookupD (assocSet cs k c) a = lookupD cs a := by
  induction cs with
  | nil =>
    unfold assocSet
    rw [lookupD_cons, if_neg (fun h => hak h.symm), lookupD_nil]
  | cons e rest ih =>
    obtain ⟨x, b⟩ := e
    unfold assocSet
    by_cases hxk : x = k
    · subst hxk
      rw [if_pos rfl, lookupD_cons, if_neg (fun h => hak h.symm), lookupD_cons,
          if_neg (fun h => hak h.symm)]
    · rw [if_neg hxk, lookupD_cons, lookupD_cons]
      by_cases hxa : x = a
      · rw [if_pos hxa, if_pos hxa]
      · rw [if_neg hxa, if_neg hxa]
        exact ih

theorem assocSet_noop (cs : List (String × Diff)) (k : String) (c : Diff)
    (h : lookupD cs k = some c) : assocSet cs k c = cs := by
  induction cs with
  | nil => rw [lookupD_nil] at h; cases h
  | cons e rest ih =>
    obtain ⟨a, b⟩ := e
    rw [lookupD_cons] at h
    unfold assocSet
    by_cases hak : a = k
    · rw [if_pos hak]
      rw [if_pos hak] at h
      injection h with h
      rw [hak, h]
    · rw [if_neg hak]
      rw [if_neg hak] at h
      rw [ih h]

theorem mergeList_type_mono (l : List (String × Diff)) : ∀ b : Diff,
    b.type = DiffType.modified → (mergeList b l).type = DiffType.modified := by
  induction l with
  | nil => intro b hb; exact hb
  | cons kc rest ih =>
    intro b hb
    rw [mergeList_cons]
    refine ih _ ?_
    rw [mergeOne_type]
    by_cases hc : kc.2.type = DiffType.equal
    · rw [if_neg (fun hh => hh hc)]
      exact hb
    · rw [if_pos hc]

theorem mergeList_lookup_not_mem (l : List (String × Diff)) : ∀ (b : Diff) (k : String),
    k ∉ l.map Prod.fst →
    lookupD (mergeList b l).children k = lookupD b.children k := by
  induction l with
  | nil => intro b k _; rfl
  | cons kc rest ih =>
    intro b k hk
    rw [List.map_cons] at hk
    rw [mergeList_cons]
    rw [ih _ k (fun hm => hk (List.mem_cons_of_mem _ hm))]
    rw [mergeOne_children]
    exact assocSet_lookup_other b.children kc.1 kc.2 k
      (fun he => hk (he ▸ List.mem_cons_self _ _))

theorem mergeList_contains (l : List (String × Diff)) : ∀ b : Diff,
    (l.map Prod.fst).Nodup →
    ∀ kc ∈ l, lookupD (mergeList b l).children kc.1 = some kc.2 ∧
      (kc.2.type ≠ DiffType.equal → (mergeList b l).type = DiffType.modified) := by
  induction l with
  | nil => intro b _ kc hm; cases hm
  | cons e rest ih =>
    intro b hnd kc hm
    rw [List.map_cons, List.nodup_cons] at hnd
    rw [mergeList_cons]
    rcases List.mem_cons.mp hm with heq | hm2
    · subst heq
      constructor
      · rw [mergeList_lookup_not_mem rest _ kc.1 hnd.1, mergeOne_children]
        exact assocSet_lookup_self b.children kc.1 kc.2
      · intro hne
        refine mergeList_type_mono rest _ ?_
        rw [mergeOne_type, if_pos hne]
    · exact ih _ hnd.2 kc hm2

theorem diff_eta (d : Diff) : Diff.mk d.path d.type d.value1 d.value2 d.children = d := by
  cases d
  rfl

theorem mergeList_noop (l : List (String × Diff)) : ∀ b : Diff,
    (∀ kc ∈ l, lookupD b.children kc.1 = some kc.2 ∧
      (kc.2.type ≠ DiffType.equal → b.type = DiffType.modified)) →
    mergeList b l = b := by
  induction l with
  | nil => intro b _; rfl
  | cons e rest ih =>
    intro b hb
    rw [mergeList_cons]
    have hmerge : mergeOne b e.1 e.2 = b := by
      obtain ⟨hl, ht⟩ := hb e (List.mem_cons_self _ _)
      unfold mergeOne
      rw [assocSet_noop _ _ _ hl]
      by_cases hc : e.2.type = DiffType.equal
      · rw [if_neg (fun hh => hh hc)]
        exact diff_eta b
      · rw [if_pos hc, ← ht hc]
        exact diff_eta b
    rw [hmerge]
    refine ih b ?_
    intro kc hm
    exact hb kc (List.mem_cons_of_mem _ hm)

/-- Re-merging an already-merged entry list changes nothing. -/
theorem mergeList_refold (b : Diff) (l : List (String × Diff))
    (hnd : (l.map Prod.fst).Nodup) :
    mergeList (mergeList b l) l = mergeList b l :=
  mergeList_noop l (mergeList b l) (mergeList_contains l b hnd)

/-- One group per top-level field in first-appearance order: the base
entry merged with all later entries sharing its top-level field. -/
def groupC : List (String × Diff) → List (String × String × Diff)
  | [] => []
  | (k, c) :: rest =>
    (extractTopLevelField k, k,
      mergeList c (rest.filter (fun kc => extractTopLevelField kc.1 == extractTopLevelField k))) ::
      groupC (rest.filter (fun kc => !(extractTopLevelField kc.1 == extractTopLevelField k)))
termination_by l => l.length
decreasing_by
  exact Nat.lt_succ_of_le (List.length_filter_le _ _)

@[simp] theorem groupC_nil : groupC [] = [] := by
  rw [groupC]

theorem groupC_cons (k : String) (c : Diff) (rest : List (String × Diff)) :
    groupC ((k, c) :: rest) =
      (extractTopLevelField k, k,
        mergeList c (rest.filter
          (fun kc => extractTopLevelField kc.1 == extractTopLevelField k))) ::
        groupC (rest.filter
          (fun kc => !(extractTopLevelField kc.1 == extractTopLevelField k))) := by
  rw [groupC]

theorem mergeAt_map_fst (acc : List (String × String × Diff)) (tf k : String) (c : Diff) :
    (mergeAt acc tf k c).map (fun e => e.1) = acc.map (fun e => e.1) := by
  induction acc with
  | nil => rfl
  | cons e rest ih =>
    obtain ⟨t, bk, nd⟩ := e
    unfold mergeAt
    by_cases ht : t = tf
    · rw [if_pos ht]
      rfl
    · rw [if_neg ht]
      rw [List.map_cons, List.map_cons, ih]

theorem lookup3_none_iff (acc : List (String × String × Diff)) (tf : String) :
    lookup3 acc tf = none ↔ ∀ e ∈ acc, ¬ e.1 = tf := by
  unfold lookup3
  rw [Option.map_eq_none', List.find?_eq_none]
  constructor
  · intro h e he
    intro heq
    have := h e he
    rw [heq] at this
    simp at this
  · intro h e he
    have := h e he
    simp [this]

theorem any_fst_eq_false (acc : List (String × String × Diff)) (tf : String)
    (h : ∀ e ∈ acc, ¬ e.1 = tf) : acc.any (fun e => e.1 == tf) = false := by
  rw [Bool.eq_false_iff]
  intro hany
  rcases List.any_eq_true.mp hany with ⟨e, he, heq⟩
  exact h e he (beq_iff_eq.mp heq)

theorem lookup3_isSome_of_mem (acc : List (String × String × Diff)) (tf : String)
    (h : acc.any (fun e => e.1 == tf) = true) : lookup3 acc tf ≠ none := by
  intro hnone
  rcases List.any_eq_true.mp h with ⟨e, he, heq⟩
  exact (lookup3_none_iff acc tf).mp hnone e he (beq_iff_eq.mp heq)

theorem lookup3_cons (t bk : String) (nd : Diff) (rest : List (String × String × Diff))
    (tf : String) :
    lookup3 ((t, bk, nd) :: rest) tf =
      if t = tf then some (bk, nd) else lookup3 rest tf := by
  unfold lookup3
  rcases h : (t == tf) with _ | _
  · simp_all [List.find?_cons, h]
  · simp_all [List.find?_cons, h]

theorem any_fst_congr (l l2 : List (String × String × Diff))
    (h : l.map (fun e => e.1) = l2.map (fun e => e.1)) (x : String) :
    l.any (fun e => e.1 == x) = l2.any (fun e => e.1 == x) := by
  have hgen : ∀ l3 : List (String × String × Diff),
      l3.any (fun e => e.1 == x) = (l3.map (fun e => e.1)).any (fun t => t == x) := by
    intro l3
    induction l3 with
    | nil => rfl
    | cons a r ih => simp [ih]
  rw [hgen l, hgen l2, h]

theorem mergeAt_mapMerge (kc : String × Diff) (cs2 : List (String × Diff)) :
    ∀ acc : List (String × String × Diff),
    (acc.map (fun e => e.1)).Nodup →
    lookup3 acc (extractTopLevelField kc.1) ≠ none →
    (mergeAt acc (extractTopLevelField kc.1) kc.1 kc.2).map
      (fun e => (e.1, e.2.1, mergeList e.2.2
        (cs2.filter (fun kc2 => extractTopLevelField kc2.1 == e.1)))) =
    acc.map (fun e => (e.1, e.2.1, mergeList e.2.2
      ((kc :: cs2).filter (fun kc2 => extractTopLevelField kc2.1 == e.1)))) := by
  intro acc
  induction acc with
  | nil =>
    intro _ hex
    exact absurd rfl hex
  | cons e rest ih =>
    intro hnd hex
    obtain ⟨t, bk, nd⟩ := e
    rw [List.map_cons, List.nodup_cons] at hnd
    unfold mergeAt
    by_cases ht : t = extractTopLevelField kc.1
    · rw [if_pos ht]
      rw [List.map_cons, List.map_cons]
      congr 1
      · have hbeq : (extractTopLevelField kc.1 == t) = true := beq_iff_eq.mpr ht.symm
        rw [List.filter_cons]
        simp only [hbeq, if_true]
        rw [mergeList_cons]
      · refine List.map_congr_left ?_
        intro e2 he2
        have hne : ¬ extractTopLevelField kc.1 == e2.1 := by
          intro hb
          have heq : extractTopLevelField kc.1 = e2.1 := beq_iff_eq.mp hb
          refine hnd.1 ?_
          rw [ht, heq]
          exact List.mem_map.mpr ⟨e2, he2, rfl⟩
        rw [List.filter_cons]
        simp only [Bool.not_eq_true] at hne
        rw [hne]
        simp
    · rw [if_neg ht]
      rw [List.map_cons, List.map_cons]
      congr 1
      · have hne : (extractTopLevelField kc.1 == t) = false :=
          beq_eq_false_iff_ne.mpr (fun h => ht h.symm)
        rw [List.filter_cons, hne]
        simp
      · refine ih hnd.2 ?_
        rw [lookup3_cons, if_neg ht] at hex
        exact hex

/-- Characterization of the `getTopLevelDiffs` fold: existing accumulator
entries get all matching entries merged in, and the remaining entries
group as `groupC`. -/
theorem gtld_foldl_char : ∀ (cs : List (String × Diff)) (acc : List (String × String × Diff)),
    (acc.map (fun e => e.1)).Nodup →
    List.foldl gtldStep acc cs =
      acc.map (fun e => (e.1, e.2.1, mergeList e.2.2
        (cs.filter (fun kc2 => extractTopLevelField kc2.1 == e.1)))) ++
      groupC (cs.filter (fun kc2 =>
        !(acc.any (fun e => e.1 == extractTopLevelField kc2.1)))) := by
  intro cs
  induction cs with
  | nil =>
    intro acc hnd
    simp only [List.foldl_nil, List.filter_nil, groupC_nil, List.append_nil,
      mergeList_nil, Prod.mk.eta, List.map_id]
    exact (List.map_id acc).symm
  | cons kc cs2 ih =>
    intro acc hnd
    rw [List.foldl_cons]
    cases hl : lookup3 acc (extractTopLevelField kc.1) with
    | some pr =>
      have hstep : gtldStep acc kc = mergeAt acc (extractTopLevelField kc.1) kc.1 kc.2 := by
        simp only [gtldStep]
        rw [hl]
      rw [hstep]
      have hnd2 : ((mergeAt acc (extractTopLevelField kc.1) kc.1 kc.2).map
          (fun e => e.1)).Nodup := by
        rw [mergeAt_map_fst]
        exact hnd
      rw [ih _ hnd2]
      congr 1
      · exact mergeAt_mapMerge kc cs2 acc hnd (fun hn => by rw [hn] at hl; cases hl)
      · have hfilter : cs2.filter (fun kc2 =>
            !((mergeAt acc (extractTopLevelField kc.1) kc.1 kc.2).any
              (fun e => e.1 == extractTopLevelField kc2.1))) =
            cs2.filter (fun kc2 =>
              !(acc.any (fun e => e.1 == extractTopLevelField kc2.1))) := by
          refine List.filter_congr ?_
          intro x _
          rw [any_fst_congr _ acc (mergeAt_map_fst acc _ kc.1 kc.2) _]
        rw [hfilter]
        have hany : acc.any (fun e => e.1 == extractTopLevelField kc.1) = true := by
          rcases hfind : acc.find? (fun e => e.1 == extractTopLevelField kc.1) with _ | e
          · unfold lookup3 at hl
            rw [hfind] at hl
            cases hl
          · have := List.find?_some hfind
            exact List.any_eq_true.mpr ⟨e, List.mem_of_find?_eq_some hfind, this⟩
        have hdrop : (kc :: cs2).filter (fun kc2 =>
            !(acc.any (fun e => e.1 == extractTopLevelField kc2.1))) =
            cs2.filter (fun kc2 =>
              !(acc.any (fun e => e.1 == extractTopLevelField kc2.1))) := by
          rw [List.filter_cons]
          simp only [hany, Bool.not_true]
          rfl
        rw [hdrop]
    | none =>
      have hstep : gtldStep acc kc = acc ++ [(extractTopLevelField kc.1, kc.1, kc.2)] := by
        simp only [gtldStep]
        rw [hl]
      rw [hstep]
      have hnotin : ∀ e ∈ acc, ¬ e.1 = extractTopLevelField kc.1 :=
        (lookup3_none_iff _ _).mp hl
      have hnd2 : ((acc ++ [(extractTopLevelField kc.1, kc.1, kc.2)]).map
          (fun e => e.1)).Nodup := by
        rw [List.map_append]
        rw [List.nodup_append]
        refine ⟨hnd, List.nodup_singleton _, ?_⟩
        intro x hx hx2
        rcases List.mem_map.mp hx with ⟨e, he, hex⟩
        rcases List.mem_singleton.mp hx2 with rfl
        exact hnotin e he hex
      rw [ih _ hnd2]
      rw [List.map_append]
      have hmap : acc.map (fun e => (e.1, e.2.1, mergeList e.2.2
          (cs2.filter (fun kc2 => extractTopLevelField kc2.1 == e.1)))) =
          acc.map (fun e => (e.1, e.2.1, mergeList e.2.2
            ((kc :: cs2).filter (fun kc2 => extractTopLevelField kc2.1 == e.1)))) := by
        refine List.map_congr_left ?_
        intro e he
        have hne : (extractTopLevelField kc.1 == e.1) = false :=
          beq_eq_false_iff_ne.mpr (fun h => hnotin e he h.symm)
        rw [List.filter_cons, hne]
        simp
      rw [hmap]
      have hanyF : acc.any (fun e => e.1 == extractTopLevelField kc.1) = false :=
        any_fst_eq_false acc _ hnotin
      have hkeep : (kc :: cs2).filter (fun kc2 =>
          !(acc.any (fun e => e.1 == extractTopLevelField kc2.1))) =
          kc :: cs2.filter (fun kc2 =>
            !(acc.any (fun e => e.1 == extractTopLevelField kc2.1))) := by
        rw [List.filter_cons]
        simp only [hanyF, Bool.not_false, if_true]
      rw [hkeep]
      obtain ⟨k0, c0⟩ := kc
      rw [groupC_cons]
      have hE1 : (cs2.filter (fun kc2 =>
          !(acc.any (fun e => e.1 == extractTopLevelField kc2.1)))).filter
            (fun kc2 => extractTopLevelField kc2.1 == extractTopLevelField k0) =
          cs2.filter (fun kc2 => extractTopLevelField kc2.1 == extractTopLevelField k0) := by
        rw [List.filter_filter]
        refine List.filter_congr ?_
        intro x _
        rcases hsame : (extractTopLevelField x.1 == extractTopLevelField k0) with _ | _
        · rfl
        · have heqtf : extractTopLevelField x.1 = extractTopLevelField k0 :=
            beq_iff_eq.mp hsame
          have : acc.any (fun e => e.1 == extractTopLevelField x.1) = false := by
            rw [heqtf]
            exact hanyF
          rw [this]
          rfl
      have hE2 : (cs2.filter (fun kc2 =>
          !(acc.any (fun e => e.1 == extractTopLevelField kc2.1)))).filter
            (fun kc2 => !(extractTopLevelField kc2.1 == extractTopLevelField k0)) =
          cs2.filter (fun kc2 =>
            !((acc ++ [(extractTopLevelField k0, k0, c0)]).any
              (fun e => e.1 == extractTopLevelField kc2.1))) := by
        rw [List.filter_filter]
        refine List.filter_congr ?_
        intro x _
        rw [List.any_append]
        rw [Bool.not_or]
        have hsingle : List.any [(extractTopLevelField k0, k0, c0)]
            (fun e => e.1 == extractTopLevelField x.1) =
            (extractTopLevelField k0 == extractTopLevelField x.1) := by
          simp [List.any_cons]
        rw [hsingle]
        rcases heq : (extractTopLevelField x.1 == extractTopLevelField k0) with _ | _
        · have heq2 : (extractTopLevelField k0 == extractTopLevelField x.1) = false :=
            beq_eq_false_iff_ne.mpr (fun h => (beq_eq_false_iff_ne.mp heq) h.symm)
          rw [heq2]
          simp [Bool.and_comm]
        · have heq2 : (extractTopLevelField k0 == extractTopLevelField x.1) = true :=
            beq_iff_eq.mpr (beq_iff_eq.mp heq).symm
          rw [heq2]
          simp
      rw [hE1, hE2]
      rw [List.append_assoc]
      rfl

/-- The fold of `getTopLevelDiffs` over the root children is exactly the
grouping `groupC`. -/
theorem gtldAcc_eq_groupC (cs : List (String × Diff)) : gtldAcc cs = groupC cs := by
  unfold gtldAcc
  rw [gtld_foldl_char cs [] (by simp)]
  rw [List.map_nil, List.nil_append]
  congr 1
  refine (List.filter_congr ?_).symm.trans (List.filter_true _)
  intro x _
  rfl

/-- The per-entry update that `getTopLevelDiffs` performs on the root
children list (the explicit form of the Go pointer mutation). -/
def updateChild (acc : List (String × String × Diff)) (kc : String × Diff) : String × Diff :=
  match lookupBase acc kc.1 with
  | some nd => (kc.1, nd)
  | none => kc

theorem getTopLevelDiffs_eq (cs : List (String × Diff)) :
    getTopLevelDiffs cs =
      ((gtldAcc cs).map (fun e => (e.1, e.2.2)), cs.map (updateChild (gtldAcc cs))) := rfl

theorem updateChild_fst (acc : List (String × String × Diff)) (kc : String × Diff) :
    (updateChild acc kc).1 = kc.1 := by
  unfold updateChild
  cases lookupBase acc kc.1 <;> rfl

theorem lookupBase_cons (t bk : String) (nd : Diff) (acc : List (String × String × Diff))
    (k : String) :
    lookupBase ((t, bk, nd) :: acc) k = if bk = k then some nd else lookupBase acc k := by
  unfold lookupBase
  rw [List.find?_cons]
  by_cases hbk : bk = k
  · subst hbk
    simp
  · rw [if_neg hbk, show (bk == k) = false from beq_eq_false_iff_ne.mpr hbk]

theorem lookupBase_none (acc : List (String × String × Diff)) (k : String)
    (h : ∀ e ∈ acc, ¬ e.2.1 = k) : lookupBase acc k = none := by
  unfold lookupBase
  rw [Option.map_eq_none', List.find?_eq_none]
  intro e he
  simpa using h e he

/-- Every group's base key comes from the grouped list. -/
theorem groupC_base_keys : ∀ (n : Nat) (l : List (String × Diff)), l.length ≤ n →
    ∀ e ∈ groupC l, e.2.1 ∈ l.map Prod.fst := by
  intro n
  induction n with
  | zero =>
    intro l hl e he
    rcases List.eq_nil_of_length_eq_zero (Nat.le_zero.mp hl) with rfl
    rw [groupC_nil] at he
    cases he
  | succ n ih =>
    intro l hl e he
    cases l with
    | nil =>
      rw [groupC_nil] at he
      cases he
    | cons kc rest =>
      obtain ⟨k0, c0⟩ := kc
      rw [groupC_cons] at he
      rcases List.mem_cons.mp he with rfl | he2
      · exact List.mem_cons_self _ _
      · have hlen2 : (rest.filter (fun kc => !(extractTopLevelField kc.1 ==
            extractTopLevelField k0))).length ≤ n :=
          le_trans (List.length_filter_le _ _) (Nat.le_of_succ_le_succ hl)
        have hmem := ih _ hlen2 e he2
        rcases List.mem_map.mp hmem with ⟨kc2, hkc2, hk2⟩
        exact List.mem_cons_of_mem _ (List.mem_map.mpr
          ⟨kc2, List.mem_of_mem_filter hkc2, hk2⟩)

theorem map_fst_map_updateChild (acc : List (String × String × Diff))
    (l : List (String × Diff)) :
    (l.map (updateChild acc)).map Prod.fst = l.map Prod.fst := by
  rw [List.map_map]
  refine List.map_congr_left ?_
  intro kc _
  exact updateChild_fst acc kc

theorem filter_key_map_updateChild (acc : List (String × String × Diff))
    (p : String → Bool) (l : List (String × Diff)) :
    (l.map (updateChild acc)).filter (fun kc => p kc.1) =
      (l.filter (fun kc => p kc.1)).map (updateChild acc) := by
  induction l with
  | nil => rfl
  | cons kc rest ih =>
    rw [List.map_cons, List.filter_cons, List.filter_cons, updateChild_fst]
    cases hp : p kc.1 <;> simp [ih]

/-- Re-grouping the updated children list reproduces the original groups:
the root-children mutation performed by `getTopLevelDiffs` is a fixed
point of the grouping, as long as the root children keys are distinct
(always true for a Go map). -/
theorem groupC_update_fix : ∀ (n : Nat) (cs : List (String × Diff)), cs.length ≤ n →
    (cs.map Prod.fst).Nodup →
    groupC (cs.map (updateChild (groupC cs))) = groupC cs := by
  intro n
  induction n with
  | zero =>
    intro cs hlen _
    rcases List.eq_nil_of_length_eq_zero (Nat.le_zero.mp hlen) with rfl
    rfl
  | succ n ih =>
    intro cs hlen hnd
    cases cs with
    | nil => rfl
    | cons kc rest =>
      obtain ⟨k0, c0⟩ := kc
      rw [List.map_cons, List.nodup_cons] at hnd
      rw [groupC_cons]
      rw [List.map_cons]
      have hhead : updateChild
          ((extractTopLevelField k0, k0,
            mergeList c0 (rest.filter (fun kc => extractTopLevelField kc.1 ==
              extractTopLevelField k0))) ::
            groupC (rest.filter (fun kc => !(extractTopLevelField kc.1 ==
              extractTopLevelField k0)))) (k0, c0) =
          (k0, mergeList c0 (rest.filter (fun kc => extractTopLevelField kc.1 ==
            extractTopLevelField k0))) := by
        unfold updateChild
        rw [lookupBase_cons, if_pos rfl]
      rw [hhead]
      have hrest : rest.map (updateChild
          ((extractTopLevelField k0, k0,
            mergeList c0 (rest.filter (fun kc => extractTopLevelField kc.1 ==
              extractTopLevelField k0))) ::
            groupC (rest.filter (fun kc => !(extractTopLevelField kc.1 ==
              extractTopLevelField k0))))) =
          rest.map (updateChild (groupC (rest.filter (fun kc =>
            !(extractTopLevelField kc.1 == extractTopLevelField k0))))) := by
        refine List.map_congr_left ?_
        intro kc hkc
        have hne : ¬ k0 = kc.1 := fun h => hnd.1 (h ▸ List.mem_map.mpr ⟨kc, hkc, rfl⟩)
        unfold updateChild
        rw [lookupBase_cons, if_neg hne]
      rw [hrest]
      rw [groupC_cons]
      have hfs : (rest.map (updateChild (groupC (rest.filter (fun kc =>
          !(extractTopLevelField kc.1 == extractTopLevelField k0)))))).filter
            (fun kc => extractTopLevelField kc.1 == extractTopLevelField k0) =
          (rest.filter (fun kc => extractTopLevelField kc.1 == extractTopLevelField k0)).map
            (updateChild (groupC (rest.filter (fun kc =>
              !(extractTopLevelField kc.1 == extractTopLevelField k0))))) :=
        filter_key_map_updateChild _ (fun t => extractTopLevelField t ==
          extractTopLevelField k0) rest
      have hfn : (rest.map (updateChild (groupC (rest.filter (fun kc =>
          !(extractTopLevelField kc.1 == extractTopLevelField k0)))))).filter
            (fun kc => !(extractTopLevelField kc.1 == extractTopLevelField k0)) =
          (rest.filter (fun kc => !(extractTopLevelField kc.1 == extractTopLevelField k0))).map
            (updateChild (groupC (rest.filter (fun kc =>
              !(extractTopLevelField kc.1 == extractTopLevelField k0))))) :=
        filter_key_map_updateChild _ (fun t => !(extractTopLevelField t ==
          extractTopLevelField k0)) rest
      rw [hfs, hfn]
      have hsame_unchanged : ∀ kc ∈ rest.filter (fun kc => extractTopLevelField kc.1 ==
          extractTopLevelField k0),
          updateChild (groupC (rest.filter (fun kc =>
            !(extractTopLevelField kc.1 == extractTopLevelField k0)))) kc = kc := by
        intro kc hkc
        have hkcr : kc ∈ rest := (List.mem_filter.mp hkc).1
        have hsameT : (extractTopLevelField kc.1 == extractTopLevelField k0) = true :=
          (List.mem_filter.mp hkc).2
        unfold updateChild
        have hnone : lookupBase (groupC (rest.filter (fun kc =>
            !(extractTopLevelField kc.1 == extractTopLevelField k0)))) kc.1 = none := by
          apply lookupBase_none
          intro e he heq
          have hbk := groupC_base_keys (rest.filter (fun kc =>
            !(extractTopLevelField kc.1 == extractTopLevelField k0))).length _ le_rfl e he
          rw [heq] at hbk
          rcases List.mem_map.mp hbk with ⟨kc2, hkc2, hk2⟩
          have hkcr2 : kc2 ∈ rest := (List.mem_filter.mp hkc2).1
          have hnsame : (!(extractTopLevelField kc2.1 == extractTopLevelField k0)) = true :=
            (List.mem_filter.mp hkc2).2
          have heqel : kc2 = kc := List.inj_on_of_nodup_map hnd.2 hkcr2 hkcr hk2
          rw [heqel] at hnsame
          rw [hsameT] at hnsame
          cases hnsame
        rw [hnone]
      rw [List.map_congr_left hsame_unchanged, List.map_id']
      have hndsub : ((rest.filter (fun kc => extractTopLevelField kc.1 ==
          extractTopLevelField k0)).map Prod.fst).Nodup :=
        List.Nodup.sublist (List.Sublist.map Prod.fst (List.filter_sublist _)) hnd.2
      rw [mergeList_refold _ _ hndsub]
      have hndsub2 : ((rest.filter (fun kc => !(extractTopLevelField kc.1 ==
          extractTopLevelField k0))).map Prod.fst).Nodup :=
        List.Nodup.sublist (List.Sublist.map Prod.fst (List.filter_sublist _)) hnd.2
      have hlen2 : (rest.filter (fun kc => !(extractTopLevelField kc.1 ==
          extractTopLevelField k0))).length ≤ n :=
        le_trans (List.length_filter_le _ _) (Nat.le_of_succ_le_succ hlen)
      rw [ih _ hlen2 hndsub2]

/-- Re-running `getTopLevelDiffs`'s accumulator on the updated children
list yields the same accumulator (distinct root keys). -/
theorem gtldAcc_update (cs : List (String × Diff)) (hnd : (cs.map Prod.fst).Nodup) :
    gtldAcc (cs.map (updateChild (gtldAcc cs))) = gtldAcc cs := by
  rw [gtldAcc_eq_groupC cs, gtldAcc_eq_groupC]
  exact groupC_update_fix cs.length cs le_rfl hnd

theorem updateChild_idem (acc : List (String × String × Diff)) (kc : String × Diff) :
    updateChild acc (updateChild acc kc) = updateChild acc kc := by
  rcases h : lookupBase acc kc.1 with _ | nd <;> simp only [updateChild, h]

theorem update_map_idem (acc : List (String × String × Diff)) (l : List (String × Diff)) :
    (l.map (updateChild acc)).map (updateChild acc) = l.map (updateChild acc) := by
  rw [List.map_map]
  refine List.map_congr_left ?_
  intro kc _
  exact updateChild_idem acc kc

/-- The text produced by `PrintGitStyleDiffV2` in the non-Equal case, as a
function of the grouping accumulator. -/
def v2text (fm : Fmt) (acc : List (String × String × Diff)) (name1 name2 : String) : String :=
  let header := fm.bold ("Comparing: " ++ name1 ++ " <-> " ++ name2) ++ "\n" ++
    repeatStr "-" 80 ++ "\n"
  let tl1 := acc.map (fun e => (e.1, e.2.2))
  if tl1.isEmpty then
    header ++ fm.green "✓ No differences found" ++ "\n"
  else
    header ++ "\n" ++
      String.join ((getSortedKeysD tl1).map (fun fieldName =>
        match lookupD tl1 fieldName with
        | some fieldDiff => printFieldDiff fm fieldName fieldDiff 0 ++ "\n"
        | none => ""))

theorem printV2_eq (fm : Fmt) (diff : Diff) (name1 name2 : String)
    (ht : ¬ diff.type = DiffType.equal) :
    printGitStyleDiffV2 fm diff name1 name2 =
      (v2text fm (gtldAcc diff.children) name1 name2,
       Diff.mk diff.path diff.type diff.value1 diff.value2
         (diff.children.map (updateChild (gtldAcc diff.children)))) := by
  simp only [printGitStyleDiffV2, v2text, getTopLevelDiffs_eq]
  rw [if_neg ht]
  split <;> rfl

/-- C9: Idempotent rendering. Rendering the same tree twice in the same
style yields byte-identical text. The grouped renderer
(`printGitStyleDiff`) is a pure function of the strategy, tree and names
(the Go code only reads the tree), so a second rendering trivially
coincides. The hierarchical renderer (`printGitStyleDiffV2`) mutates the
tree through `getTopLevelDiffs` (modeled explicitly: the call returns the
tree as left after the merges); for any tree whose root children keys are
distinct (always true for a Go map), rendering the mutated tree again
produces the same text, and the second call leaves the tree unchanged. -/
theorem claim_C9 (fm : Fmt) (diff : Diff) (name1 name2 : String)
    (hnd : (diff.children.map Prod.fst).Nodup) :
    ((printGitStyleDiffV2 fm (printGitStyleDiffV2 fm diff name1 name2).2 name1 name2).1 =
        (printGitStyleDiffV2 fm diff name1 name2).1 ∧
      (printGitStyleDiffV2 fm (printGitStyleDiffV2 fm diff name1 name2).2 name1 name2).2 =
        (printGitStyleDiffV2 fm diff name1 name2).2) ∧
    printGitStyleDiff fm diff name1 name2 = printGitStyleDiff fm diff name1 name2 := by
  refine ⟨?_, rfl⟩
  by_cases ht : diff.type = DiffType.equal
  · have h1 : printGitStyleDiffV2 fm diff name1 name2 =
        (fm.bold ("Comparing: " ++ name1 ++ " <-> " ++ name2) ++ "\n" ++
          repeatStr "-" 80 ++ "\n" ++ fm.green "✓ No differences found" ++ "\n", diff) := by
      simp only [printGitStyleDiffV2]
      rw [if_pos ht]
    have h2 : (printGitStyleDiffV2 fm diff name1 name2).2 = diff := by rw [h1]
    rw [h2]
    exact ⟨rfl, h2⟩
  · simp only [printV2_eq fm diff name1 name2 ht]
    have ht2 : ¬ (Diff.mk diff.path diff.type diff.value1 diff.value2
        (diff.children.map (updateChild (gtldAcc diff.children)))).type = DiffType.equal := ht
    simp only [printV2_eq fm (Diff.mk diff.path diff.type diff.value1 diff.value2
      (diff.children.map (updateChild (gtldAcc diff.children)))) name1 name2 ht2,
      Diff.path_mk, Diff.type_mk, Diff.value1_mk, Diff.value2_mk, Diff.children_mk]
    rw [gtldAcc_update diff.children hnd]
    rw [update_map_idem]
    exact ⟨rfl, rfl⟩

/-- Witness for C9 at a concrete tree, strategy and names. -/
theorem claim_C9_witness :
    (((Diff.mk "" DiffType.modified none none
        [("a", Diff.mk "a" DiffType.added none (some (Value.num 1)) [])]).children.map
          Prod.fst).Nodup) ∧
    ((printGitStyleDiffV2 (Fmt.mk id id id id id id)
        (printGitStyleDiffV2 (Fmt.mk id id id id id id)
          (Diff.mk "" DiffType.modified none none
            [("a", Diff.mk "a" DiffType.added none (some (Value.num 1)) [])]) "x" "y").2
        "x" "y").1 =
      (printGitStyleDiffV2 (Fmt.mk id id id id id id)
        (Diff.mk "" DiffType.modified none none
          [("a", Diff.mk "a" DiffType.added none (some (Value.num 1)) [])]) "x" "y").1 ∧
     (printGitStyleDiffV2 (Fmt.mk id id id id id id)
        (printGitStyleDiffV2 (Fmt.mk id id id id id id)
          (Diff.mk "" DiffType.modified none none
            [("a", Diff.mk "a" DiffType.added none (some (Value.num 1)) [])]) "x" "y").2
        "x" "y").2 =
      (printGitStyleDiffV2 (Fmt.mk id id id id id id)
        (Diff.mk "" DiffType.modified none none
          [("a", Diff.mk "a" DiffType.added none (some (Value.num 1)) [])]) "x" "y").2) ∧
    printGitStyleDiff (Fmt.mk id id id id id id)
      (Diff.mk "" DiffType.modified none none
        [("a", Diff.mk "a" DiffType.added none (some (Value.num 1)) [])]) "x" "y" =
    printGitStyleDiff (Fmt.mk id id id id id id)
      (Diff.mk "" DiffType.modified none none
        [("a", Diff.mk "a" DiffType.added none (some (Value.num 1)) [])]) "x" "y" :=
  ⟨by decide,
   claim_C9 (Fmt.mk id id id id id id)
     (Diff.mk "" DiffType.modified none none
       [("a", Diff.mk "a" DiffType.added none (some (Value.num 1)) [])]) "x" "y" (by decide)⟩

end GcdiffProof
